import Mathlib

/-!
# Holt-Winters filter (`src/ext/holt_winters.c`)

A shallow embedding of the C function `HoltWinters` and proofs about it.

Modelling conventions.

* `double` values are elements of a type `F` that carries the operations the
  code uses (`+ - * /`, the literals `0` and `1`, and the test `> 0`).  The
  structural theorems hold for every such `F`, so also for `double` itself.
  Theorems that need laws of arithmetic ask for a linearly ordered field and
  say so: they describe the recurrence in exact arithmetic, without rounding,
  infinities or NaN.  `Dbl` models `double` (IEEE 754 binary64) and shows
  where the two part.
* `int` values are mathematical integers (`Int`); the index arithmetic of the
  function is assumed not to overflow.
* A `double *` buffer is a list whose length is the number of cells the caller
  allocated.  Every access is bounds-checked: an access outside the buffer
  (undefined behaviour in C) makes the run return `none`.
* The buffers `x`, `s`, `level`, `trend`, `season` and the cell `SSE` are
  assumed pairwise disjoint, and the scalar inputs are not aliased by them.
-/

set_option linter.unusedSectionVars false

namespace HW

/-- The read-only arguments of `HoltWinters` (lines 27-37), dereferenced. -/
structure Args (F : Type) where
  x : List F
  xl : Int
  alpha : F
  beta : F
  gamma : F
  start_time : Int
  seasonal : Int
  period : Int
  a : F
  b : F
  s : List F

/-- The cells behind the "return value" pointers of `HoltWinters`
(lines 40-43): what they hold before the call and what they hold after. -/
structure Out (F : Type) where
  SSE : F
  level : List F
  trend : List F
  season : List F
  deriving DecidableEq

/-- Read `buf[i]`: `none` when `i` is outside the buffer. -/
def rd {F : Type} (buf : List F) (i : Int) : Option F :=
  if 0 ≤ i then buf[i.toNat]? else none

/-- Write `buf[i] = v`: `none` when `i` is outside the buffer. -/
def wr {F : Type} (buf : List F) (i : Int) (v : F) : Option (List F) :=
  if 0 ≤ i ∧ i < (buf.length : Int) then some (buf.set i.toNat v) else none

/-- The call `memcpy(dst, src, n * sizeof(double))`: the first `n` cells of
`src` replace the first `n` cells of `dst`.  A negative `n` converts to a
huge `size_t` and so runs outside both buffers. -/
def memcpy {F : Type} (dst src : List F) (n : Int) : Option (List F) :=
  if 0 ≤ n ∧ n ≤ (src.length : Int) ∧ n ≤ (dst.length : Int) then
    some (src.take n.toNat ++ dst.drop n.toNat)
  else none

section Code

variable {F : Type} [Add F] [Sub F] [Mul F] [Div F] [Zero F] [One F] [LT F]
  [DecidableRel (fun u v : F => u < v)]

/-- The forecast `xhat` of lines 61-66, from the values read at lines 61-62
(`l1 = level[i0 - 1]`, `t1 = trend[i0 - 1]` or the literal `0`, `stmp`). -/
def forecast (seasonal : Int) (l1 t1 stmp : F) : F :=
  if seasonal = 1 then (l1 + t1) + stmp else (l1 + t1) * stmp

/-- The level estimate of lines 73-78. -/
def levelEst (seasonal : Int) (alpha xi stmp l1 tr : F) : F :=
  if seasonal = 1 then alpha * (xi - stmp) + (1 - alpha) * (l1 + tr)
  else alpha * (xi / stmp) + (1 - alpha) * (l1 + tr)

/-- The trend estimate of lines 82-83. -/
def trendEst (beta lv l1 tr : F) : F :=
  beta * (lv - l1) + (1 - beta) * tr

/-- The seasonal estimate of lines 87-92. -/
def seasonEst (seasonal : Int) (gamma xi lv stmp : F) : F :=
  if seasonal = 1 then gamma * (xi - lv) + (1 - gamma) * stmp
  else gamma * (xi / lv) + (1 - gamma) * stmp

/-- One iteration of the loop body (lines 56-93) for the series index `i`. -/
def step (p : Args F) (i : Int) (m : Out F) : Option (Out F) :=
  let i0 := i - p.start_time + 2
  let s0 := i0 + p.period - 1
  -- forecast *for* period i
  (rd m.level (i0 - 1)).bind fun l1 =>
  (if p.beta > 0 then rd m.trend (i0 - 1) else some 0).bind fun t1 =>
  (if p.gamma > 0 then rd m.season (s0 - p.period)
    else some (if p.seasonal ≠ 1 then 1 else 0)).bind fun stmp =>
  let xhat := forecast p.seasonal l1 t1 stmp
  -- Sum of Squared Errors
  (rd p.x i).bind fun xi =>
  let res := xi - xhat
  let sse := m.SSE + res * res
  -- estimate of level *in* period i
  (rd m.trend (i0 - 1)).bind fun tr =>
  let lv := levelEst p.seasonal p.alpha xi stmp l1 tr
  (wr m.level i0 lv).bind fun level =>
  -- estimate of trend *in* period i
  (if p.beta > 0 then wr m.trend i0 (trendEst p.beta lv l1 tr)
    else some m.trend).bind fun trend =>
  -- estimate of seasonal component *in* period i
  (if p.gamma > 0 then wr m.season s0 (seasonEst p.seasonal p.gamma xi lv stmp)
    else some m.season).bind fun season =>
  some { SSE := sse, level := level, trend := trend, season := season }

/-- The loop `for (i = ...; i < *xl; i++)` of line 55, started at `i`, with
`fuel` bounding the number of iterations; a run that would need more
iterations than `fuel` has no result. -/
def loop (p : Args F) : Nat → Int → Out F → Option (Out F)
  | 0, i, m => if i < p.xl then none else some m
  | fuel + 1, i, m =>
    if i < p.xl then (step p i m).bind (loop p fuel (i + 1)) else some m

/-- The function `HoltWinters` (lines 26-95): seed copy, then the loop from
`i = *start_time - 1`.  The fuel is the exact number of iterations. -/
def HoltWinters (p : Args F) (m : Out F) : Option (Out F) :=
  -- copy start values to the beginning of the vectors
  (wr m.level 0 p.a).bind fun level =>
  (if p.beta > 0 then wr m.trend 0 p.b else some m.trend).bind fun trend =>
  (if p.gamma > 0 then memcpy m.season p.s p.period else some m.season).bind fun season =>
  loop p (p.xl - (p.start_time - 1)).toNat (p.start_time - 1)
    { SSE := m.SSE, level := level, trend := trend, season := season }

/-- Step `k >= 1` of the recurrence as the buffers `m` record it: the entry
`level[k]` is the level estimate computed from `level[k-1]`, `trend[k-1]`,
the seasonal term (`season[k-1]` when `gamma > 0`, else `seasonal != 1`) and
the series value `x[start_time - 2 + k]`; `trend[k]` (when `beta > 0`) and
`season[k-1+period]` (when `gamma > 0`) are the matching estimates. -/
def StepDone (p : Args F) (m : Out F) (k : Int) : Prop :=
  ∃ l0 tr stmp y,
    rd m.level (k - 1) = some l0 ∧
    rd m.trend (k - 1) = some tr ∧
    (if p.gamma > 0 then rd m.season (k - 1)
      else some (if p.seasonal ≠ 1 then 1 else 0)) = some stmp ∧
    rd p.x (p.start_time - 2 + k) = some y ∧
    rd m.level k = some (levelEst p.seasonal p.alpha y stmp l0 tr) ∧
    (p.beta > 0 →
      rd m.trend k = some (trendEst p.beta (levelEst p.seasonal p.alpha y stmp l0 tr) l0 tr)) ∧
    (p.gamma > 0 →
      rd m.season (k - 1 + p.period)
        = some (seasonEst p.seasonal p.gamma y (levelEst p.seasonal p.alpha y stmp l0 tr) stmp))

/-- The caller contract on buffer sizes: `x` holds the `xl` series values,
`level` and `trend` hold `xl - start_time + 2` cells, and, when the seasonal
component is enabled, `s` holds `period` seed values and `season` holds
`xl - start_time + 1 + period` cells. -/
def Sized (p : Args F) (m : Out F) : Prop :=
  p.xl ≤ (p.x.length : Int) ∧
  p.xl - p.start_time + 2 ≤ (m.level.length : Int) ∧
  p.xl - p.start_time + 2 ≤ (m.trend.length : Int) ∧
  (p.gamma > 0 → p.period ≤ (p.s.length : Int) ∧
    p.xl - p.start_time + 1 + p.period ≤ (m.season.length : Int))

instance (p : Args F) (m : Out F) : Decidable (Sized p m) := by
  unfold Sized
  infer_instance

/-- The sum of squared one-step-ahead errors of the first `n` steps, added to
`sse0` in step order, with every forecast recomputed from the buffers `m`:
step `k` uses `level[k-1]`, `trend[k-1]` (the literal `0` unless `beta > 0`),
the seasonal term `season[k-1]` (`seasonal != 1` unless `gamma > 0`) and the
series value `x[start_time - 2 + k]`. -/
def sseUpTo (p : Args F) (m : Out F) (sse0 : F) : Nat → Option F
  | 0 => some sse0
  | n + 1 =>
    (sseUpTo p m sse0 n).bind fun acc =>
    (rd m.level (n : Int)).bind fun l0 =>
    (if p.beta > 0 then rd m.trend (n : Int) else some 0).bind fun t0 =>
    (if p.gamma > 0 then rd m.season (n : Int)
      else some (if p.seasonal ≠ 1 then 1 else 0)).bind fun stmp =>
    (rd p.x (p.start_time - 1 + (n : Int))).bind fun y =>
    some (acc + (y - forecast p.seasonal l0 t0 stmp) * (y - forecast p.seasonal l0 t0 stmp))

/-- The accumulated error as the multiplicative model with trend and seasonal
component describes it: starting from `sse0`, step `k = 1 .. n` adds
`(y - xhat)^2` with `y = x[start_time - 2 + k]` and the forecast
`xhat = (level[k-1] + trend[k-1]) * season[k-1]`, all read from `m`. -/
def sseMultiplicative (p : Args F) (m : Out F) (sse0 : F) : Nat → Option F
  | 0 => some sse0
  | n + 1 =>
    (sseMultiplicative p m sse0 n).bind fun acc =>
    (rd m.level (n : Int)).bind fun l0 =>
    (rd m.trend (n : Int)).bind fun t0 =>
    (rd m.season (n : Int)).bind fun s0 =>
    (rd p.x (p.start_time - 1 + (n : Int))).bind fun y =>
    some (acc + (y - (l0 + t0) * s0) * (y - (l0 + t0) * s0))

/-- Step `k >= 1` as the buffers `m` record it when nothing is assumed about
`period`: `level[k]` is the level estimate computed from `level[k-1]`,
`trend[k-1]`, the series value and the seasonal term `stmp` the step read, and
`trend[k]` is the trend estimate when `beta > 0`.  When `gamma > 0` and
`period = 0`, `stmp` is the cell `season[k-1]` of the buffers `m0` the loop
started from, and that cell now holds the seasonal estimate. -/
def LevelDone (p : Args F) (m0 m : Out F) (k : Int) : Prop :=
  ∃ l0 tr stmp y,
    rd m.level (k - 1) = some l0 ∧
    rd m.trend (k - 1) = some tr ∧
    rd p.x (p.start_time - 2 + k) = some y ∧
    rd m.level k = some (levelEst p.seasonal p.alpha y stmp l0 tr) ∧
    (p.beta > 0 →
      rd m.trend k = some (trendEst p.beta (levelEst p.seasonal p.alpha y stmp l0 tr) l0 tr)) ∧
    (p.gamma > 0 → p.period = 0 →
      rd m0.season (k - 1) = some stmp ∧
      rd m.season (k - 1)
        = some (seasonEst p.seasonal p.gamma y (levelEst p.seasonal p.alpha y stmp l0 tr) stmp))

end Code

/-! ## A model of `double`

The theorems that hold "for every arithmetic type" hold for this one.  It is
used to run `HoltWinters` where exact arithmetic says nothing: on inputs that
produce an infinity or a NaN, and on inputs where rounding shows. -/

/-- A value of the C type `double` (IEEE 754 binary64): a finite value, held as
the rational it stands for, an infinity with its sign (`true` for negative),
or a NaN.  The two zeros are one value and all NaNs are one value. -/
inductive Dbl where
  | fin (q : ℚ)
  | inf (neg : Bool)
  | nan
  deriving DecidableEq

namespace Dbl

/-- The rational `2 ^ e`. -/
def pow2 (e : Int) : ℚ :=
  if 0 ≤ e then ((2 ^ e.toNat : Nat) : ℚ) else 1 / ((2 ^ (-e).toNat : Nat) : ℚ)

/-- The number of binary digits of `k`, counted with at most `fuel` halvings. -/
def bitsAux : Nat → Nat → Nat
  | 0, _ => 0
  | fuel + 1, k => if k = 0 then 0 else bitsAux fuel (k / 2) + 1

/-- The number of binary digits of `n` (`n` halvings are more than enough). -/
def bitLength (n : Nat) : Nat := bitsAux n n

/-- The binary exponent of `a > 0`: the `e` with `2^e <= a < 2^(e+1)`.  The
difference of the digit counts of numerator and denominator is `e` or `e + 1`. -/
def expo (a : ℚ) : Int :=
  let e0 : Int := (bitLength a.num.natAbs : Int) - (bitLength a.den : Int)
  if pow2 e0 ≤ a then e0 else e0 - 1

/-- The integer nearest to `m >= 0`, a tie going to the even one. -/
def nearestEven (m : ℚ) : Int :=
  let f := Rat.floor m
  let r := m - (f : ℚ)
  if r < 1 / 2 then f else if 1 / 2 < r then f + 1 else if f % 2 = 0 then f else f + 1

/-- Rounding to nearest, ties to even, as every binary64 operation does:
53 significant bits for a normal result, multiples of `2^-1074` below
`2^-1022`, and an infinity when the rounded magnitude reaches `2^1024`. -/
def round (q : ℚ) : Dbl :=
  if q = 0 then fin 0
  else
    let a := if q < 0 then -q else q
    let e := max (expo a) (-1022)
    let ulp := pow2 (e - 52)
    let r := (nearestEven (a / ulp) : ℚ) * ulp
    if pow2 1024 ≤ r then inf (decide (q < 0)) else fin (if q < 0 then -r else r)

/-- Negation (exact). -/
def neg : Dbl → Dbl
  | fin q => fin (-q)
  | inf s => inf (!s)
  | nan => nan

/-- Addition: `inf + -inf` is NaN. -/
def add : Dbl → Dbl → Dbl
  | nan, _ => nan
  | _, nan => nan
  | inf s, inf t => if s = t then inf s else nan
  | inf s, fin _ => inf s
  | fin _, inf t => inf t
  | fin a, fin b => round (a + b)

/-- Multiplication: `inf * 0` is NaN. -/
def mul : Dbl → Dbl → Dbl
  | nan, _ => nan
  | _, nan => nan
  | inf s, inf t => inf (xor s t)
  | inf s, fin b => if b = 0 then nan else inf (xor s (decide (b < 0)))
  | fin a, inf t => if a = 0 then nan else inf (xor (decide (a < 0)) t)
  | fin a, fin b => round (a * b)

/-- Division: `0 / 0` and `inf / inf` are NaN, a non-zero value over zero is an
infinity (the zero divisor counts as positive). -/
def div : Dbl → Dbl → Dbl
  | nan, _ => nan
  | _, nan => nan
  | inf _, inf _ => nan
  | inf s, fin b => inf (xor s (decide (b < 0)))
  | fin _, inf _ => fin 0
  | fin a, fin b =>
    if b = 0 then (if a = 0 then nan else inf (decide (a < 0))) else round (a / b)

/-- The comparison `<`: false as soon as one side is NaN. -/
def lt : Dbl → Dbl → Bool
  | nan, _ => false
  | _, nan => false
  | inf s, inf t => s && !t
  | inf s, fin _ => s
  | fin _, inf t => !t
  | fin a, fin b => decide (a < b)

/-- The comparison `<=`: false as soon as one side is NaN. -/
def le : Dbl → Dbl → Bool
  | nan, _ => false
  | _, nan => false
  | inf s, inf t => s || !t
  | inf s, fin _ => s
  | fin _, inf t => !t
  | fin a, fin b => decide (a ≤ b)

instance : Add Dbl := ⟨add⟩
instance : Sub Dbl := ⟨fun a b => add a (neg b)⟩
instance : Mul Dbl := ⟨mul⟩
instance : Div Dbl := ⟨div⟩
instance : Zero Dbl := ⟨fin 0⟩
instance : One Dbl := ⟨fin 1⟩
instance : LT Dbl := ⟨fun a b => lt a b = true⟩
instance : LE Dbl := ⟨fun a b => le a b = true⟩
instance : DecidableRel (fun u v : Dbl => u < v) := fun a b => decEq (lt a b) true
instance : DecidableRel (fun u v : Dbl => u ≤ v) := fun a b => decEq (le a b) true

end Dbl

/-! ## Concrete runs -/

/-- A seasonal run in additive mode: period 2, three series values, the
recurrence starting at the second one; output buffers sized by the caller
contract and zero-filled. -/
def seasonalArgs : Args ℚ :=
  { x := [1, 2, 4], xl := 3, alpha := 1 / 2, beta := 1 / 2, gamma := 1 / 2, start_time := 2,
    seasonal := 1, period := 2, a := 1, b := 0, s := [1, -1] }

/-- The same run in multiplicative mode. -/
def multiplicativeArgs : Args ℚ :=
  { x := [1, 2, 4], xl := 3, alpha := 1 / 2, beta := 1 / 2, gamma := 1 / 2, start_time := 2,
    seasonal := 0, period := 2, a := 1, b := 0, s := [1, 2] }

/-- Zero-filled output cells for the seasonal runs. -/
def seasonalOut : Out ℚ :=
  { SSE := 0, level := [0, 0, 0], trend := [0, 0, 0], season := [0, 0, 0, 0] }

/-- A one-step run whose only forecast is exact: `x[0] = 1`, seed level `1`,
no trend and no seasonal component. -/
def exactArgs : Args ℚ :=
  { x := [1], xl := 1, alpha := 1, beta := 0, gamma := 0, start_time := 1,
    seasonal := 1, period := 0, a := 1, b := 0, s := [] }

/-- Output cells for `exactArgs` in which the caller left `5` in `SSE`. -/
def staleSseOut : Out ℚ :=
  { SSE := 5, level := [0, 0], trend := [0, 0], season := [] }

/-- A one-step run of simple exponential smoothing: `beta = 0`, `gamma = 0`,
`alpha = 1/2`, one series value `2`, seed level `0`. -/
def smoothingArgs : Args ℚ :=
  { x := [2], xl := 1, alpha := 1 / 2, beta := 0, gamma := 0, start_time := 1,
    seasonal := 1, period := 0, a := 0, b := 0, s := [] }

/-- Output cells for `smoothingArgs` in which the (disabled) trend buffer
holds `4` in both cells. -/
def staleTrendOut : Out ℚ :=
  { SSE := 0, level := [0, 0], trend := [4, 4], season := [] }

/-- Zero-filled output cells for `smoothingArgs`. -/
def smoothingOut : Out ℚ :=
  { SSE := 0, level := [0, 0], trend := [0, 0], season := [] }

/-- A call with the seasonal component enabled and `period = 0`: two series
values, additive mode, no seed season values. -/
def zeroPeriodArgs : Args ℚ :=
  { x := [1, 2], xl := 2, alpha := 1 / 2, beta := 0, gamma := 1 / 2, start_time := 1,
    seasonal := 1, period := 0, a := 0, b := 0, s := [] }

/-- Output cells for `zeroPeriodArgs`: the caller left `3` in both season cells. -/
def zeroPeriodOut : Out ℚ :=
  { SSE := 0, level := [0, 0, 0], trend := [0, 0, 0], season := [3, 3] }

/-- Output cells for the seasonal runs holding leftovers instead of zeros
(same `SSE` as `seasonalOut`). -/
def seasonalDirtyOut : Out ℚ :=
  { SSE := 0, level := [7, 8, 9], trend := [-1, -2, -3], season := [4, 5, 6, 7] }

/-- A constant series `3, 3, 3` in multiplicative mode with every component
enabled: seed level `3`, seed trend `0`, seed season values `1`. -/
def constantArgs : Args ℚ :=
  { x := [3, 3, 3], xl := 3, alpha := 1 / 2, beta := 1 / 3, gamma := 1 / 4, start_time := 2,
    seasonal := 0, period := 2, a := 3, b := 0, s := [1, 1] }

/-- The demo of `main` (lines 97-134): the US population series, `xl = 19`,
`start_time = 2`, `alpha = 0.9999208`, no trend, no seasonal component, seed
level `series[0] = 3.93`, seed trend `0`. -/
def demoArgs : Args ℚ :=
  { x := [393 / 100, 531 / 100, 724 / 100, 964 / 100, 1290 / 100, 1710 / 100, 2320 / 100,
      3140 / 100, 3980 / 100, 5020 / 100, 6290 / 100, 7600 / 100, 9200 / 100, 10570 / 100,
      12280 / 100, 13170 / 100, 15130 / 100, 17930 / 100, 20320 / 100],
    xl := 19, alpha := 9999208 / 10000000, beta := 0, gamma := 0, start_time := 2,
    seasonal := 0, period := 0, a := 393 / 100, b := 0, s := [] }

/-- Zero-filled output cells for the demo: `xl - start_time + 2 = 19` cells in
each buffer. -/
def demoOut : Out ℚ :=
  { SSE := 0, level := List.replicate 19 0, trend := List.replicate 19 0,
    season := List.replicate 19 0 }

/-- Output cells for `seasonalArgs` of the size the parameter comments give,
`xl - start_time + 1 = 2` cells in each buffer. -/
def documentedSizeOut : Out ℚ :=
  { SSE := 0, level := [0, 0], trend := [0, 0], season := [0, 0] }

/-- Output cells for `exactArgs` with `0` in `SSE`. -/
def exactOut : Out ℚ :=
  { SSE := 0, level := [0, 0], trend := [0, 0], season := [] }

/-- A constant series in `double` arithmetic, additive mode, every component
enabled: three values `0.3`, `alpha = 0.1`, `beta = gamma = 0.5`, `period = 1`,
seed level `0.3`, seed trend `0`, seed season value `0`. -/
def constantDblArgs : Args Dbl :=
  { x := [Dbl.round (3 / 10), Dbl.round (3 / 10), Dbl.round (3 / 10)], xl := 3,
    alpha := Dbl.round (1 / 10), beta := Dbl.round (1 / 2), gamma := Dbl.round (1 / 2),
    start_time := 1, seasonal := 1, period := 1, a := Dbl.round (3 / 10), b := Dbl.fin 0,
    s := [Dbl.fin 0] }

/-- Zero-filled output cells for `constantDblArgs`. -/
def constantDblOut : Out Dbl :=
  { SSE := Dbl.fin 0, level := [Dbl.fin 0, Dbl.fin 0, Dbl.fin 0, Dbl.fin 0],
    trend := [Dbl.fin 0, Dbl.fin 0, Dbl.fin 0, Dbl.fin 0],
    season := [Dbl.fin 0, Dbl.fin 0, Dbl.fin 0, Dbl.fin 0] }

/-- What `HoltWinters` returns for `constantDblArgs`. -/
def constantDblResult : Out Dbl :=
  { SSE := Dbl.fin (5 / 324518553658426726783156020576256),
    level := [Dbl.fin (5404319552844595 / 18014398509481984),
      Dbl.fin (1351079888211149 / 4503599627370496),
      Dbl.fin (5404319552844597 / 18014398509481984),
      Dbl.fin (2702159776422299 / 9007199254740992)],
    trend := [Dbl.fin 0, Dbl.fin (1 / 36028797018963968), Dbl.fin (3 / 72057594037927936),
      Dbl.fin (7 / 144115188075855872)],
    season := [Dbl.fin 0, Dbl.fin (-1 / 36028797018963968), Dbl.fin (-5 / 72057594037927936),
      Dbl.fin (-17 / 144115188075855872)] }

/-- Simple exponential smoothing in `double` arithmetic: two series values
`0.3`, `alpha = 0.1`, no trend, no seasonal component, seed level `0.3`. -/
def roundingArgs : Args Dbl :=
  { x := [Dbl.round (3 / 10), Dbl.round (3 / 10)], xl := 2, alpha := Dbl.round (1 / 10),
    beta := Dbl.fin 0, gamma := Dbl.fin 0, start_time := 1, seasonal := 1, period := 0,
    a := Dbl.round (3 / 10), b := Dbl.fin 0, s := [] }

/-- Zero-filled output cells for `roundingArgs`. -/
def roundingOut : Out Dbl :=
  { SSE := Dbl.fin 0, level := [Dbl.fin 0, Dbl.fin 0, Dbl.fin 0],
    trend := [Dbl.fin 0, Dbl.fin 0, Dbl.fin 0], season := [] }

/-- What `HoltWinters` returns for `roundingArgs`. -/
def roundingResult : Out Dbl :=
  { SSE := Dbl.fin (1 / 324518553658426726783156020576256),
    level := [Dbl.fin (5404319552844595 / 18014398509481984),
      Dbl.fin (1351079888211149 / 4503599627370496),
      Dbl.fin (1351079888211149 / 4503599627370496)],
    trend := [Dbl.fin 0, Dbl.fin 0, Dbl.fin 0], season := [] }

/-! ## Buffer accesses -/

section Buffers
variable {F : Type}

theorem rd_eq_some {buf : List F} {i : Int} {v : F} (h : rd buf i = some v) :
    0 ≤ i ∧ i < (buf.length : Int) := by
  unfold rd at h
  split at h
  · rename_i h0
    refine ⟨h0, ?_⟩
    have := (List.getElem?_eq_some.mp h).1
    omega
  · cases h

theorem rd_of_lt (buf : List F) {i : Int} (h0 : 0 ≤ i) (h1 : i < (buf.length : Int)) :
    ∃ v, rd buf i = some v := by
  have hlt : i.toNat < buf.length := by omega
  exact ⟨buf[i.toNat], by simp [rd, h0, List.getElem?_eq_getElem hlt]⟩

theorem wr_of_lt (buf : List F) {i : Int} (v : F) (h0 : 0 ≤ i)
    (h1 : i < (buf.length : Int)) : wr buf i v = some (buf.set i.toNat v) := by
  simp [wr, h0, h1]

theorem wr_eq_some {buf buf' : List F} {i : Int} {v : F} (h : wr buf i v = some buf') :
    0 ≤ i ∧ i < (buf.length : Int) ∧ buf' = buf.set i.toNat v := by
  unfold wr at h
  split at h
  · rename_i hb
    exact ⟨hb.1, hb.2, (Option.some.inj h).symm⟩
  · cases h

theorem wr_length {buf buf' : List F} {i : Int} {v : F} (h : wr buf i v = some buf') :
    buf'.length = buf.length := by
  obtain ⟨_, _, rfl⟩ := wr_eq_some h
  simp

theorem rd_wr_same {buf buf' : List F} {i : Int} {v : F} (h : wr buf i v = some buf') :
    rd buf' i = some v := by
  obtain ⟨h0, h1, rfl⟩ := wr_eq_some h
  have hlt : i.toNat < buf.length := by omega
  simp [rd, h0, hlt]

theorem rd_wr_ne {buf buf' : List F} {i j : Int} {v : F} (h : wr buf i v = some buf')
    (hne : j ≠ i) : rd buf' j = rd buf j := by
  obtain ⟨h0, h1, rfl⟩ := wr_eq_some h
  unfold rd
  split
  · rename_i hj
    have : i.toNat ≠ j.toNat := by omega
    simp [List.getElem?_set_ne this]
  · rfl

theorem memcpy_eq_some {dst src d : List F} {n : Int} (h : memcpy dst src n = some d) :
    0 ≤ n ∧ n ≤ (src.length : Int) ∧ n ≤ (dst.length : Int) ∧
      d = src.take n.toNat ++ dst.drop n.toNat := by
  unfold memcpy at h
  split at h
  · rename_i hb
    exact ⟨hb.1, hb.2.1, hb.2.2, (Option.some.inj h).symm⟩
  · cases h

theorem memcpy_length {dst src d : List F} {n : Int} (h : memcpy dst src n = some d) :
    d.length = dst.length := by
  obtain ⟨h0, h1, h2, rfl⟩ := memcpy_eq_some h
  simp
  omega

theorem rd_memcpy_lt {dst src d : List F} {n j : Int} (h : memcpy dst src n = some d)
    (hj : j < n) : rd d j = rd src j := by
  obtain ⟨h0, h1, h2, rfl⟩ := memcpy_eq_some h
  unfold rd
  split
  · rename_i hj0
    have h3 : j.toNat < n.toNat := by omega
    have h4 : j.toNat < (List.take n.toNat src).length := by simp; omega
    rw [List.getElem?_append_left h4, List.getElem?_take_of_lt h3]
  · rfl

theorem rd_memcpy_ge {dst src d : List F} {n j : Int} (h : memcpy dst src n = some d)
    (hj : n ≤ j) : rd d j = rd dst j := by
  obtain ⟨h0, h1, h2, rfl⟩ := memcpy_eq_some h
  unfold rd
  have hj0 : 0 ≤ j := by omega
  simp only [hj0, if_true]
  have h4 : (List.take n.toNat src).length = n.toNat := by simp; omega
  have h5 : (List.take n.toNat src).length ≤ j.toNat := by omega
  rw [List.getElem?_append_right h5, List.getElem?_drop, h4]
  congr 1
  omega

end Buffers

/-! ## The loop body and the loop -/

section StepLemmas
variable {F : Type} [Add F] [Sub F] [Mul F] [Div F] [Zero F] [One F] [LT F]
  [DecidableRel (fun u v : F => u < v)]

/-- What a successful iteration read, computed and wrote. -/
theorem step_eq_some {p : Args F} {i : Int} {m m' : Out F} (h : step p i m = some m') :
    ∃ l1 t1 stmp xi tr,
      rd m.level (i - p.start_time + 2 - 1) = some l1 ∧
      (if p.beta > 0 then rd m.trend (i - p.start_time + 2 - 1) else some 0) = some t1 ∧
      (if p.gamma > 0 then rd m.season (i - p.start_time + 2 + p.period - 1 - p.period)
        else some (if p.seasonal ≠ 1 then 1 else 0)) = some stmp ∧
      rd p.x i = some xi ∧
      rd m.trend (i - p.start_time + 2 - 1) = some tr ∧
      wr m.level (i - p.start_time + 2) (levelEst p.seasonal p.alpha xi stmp l1 tr)
        = some m'.level ∧
      (if p.beta > 0 then
          wr m.trend (i - p.start_time + 2)
            (trendEst p.beta (levelEst p.seasonal p.alpha xi stmp l1 tr) l1 tr)
        else some m.trend) = some m'.trend ∧
      (if p.gamma > 0 then
          wr m.season (i - p.start_time + 2 + p.period - 1)
            (seasonEst p.seasonal p.gamma xi (levelEst p.seasonal p.alpha xi stmp l1 tr) stmp)
        else some m.season) = some m'.season ∧
      m'.SSE = m.SSE + (xi - forecast p.seasonal l1 t1 stmp) * (xi - forecast p.seasonal l1 t1 stmp) := by
  simp only [step, Option.bind_eq_some] at h
  obtain ⟨l1, h1, t1, h2, stmp, h3, xi, h4, tr, h5, lv, h6, tv, h7, sv, h8, h9⟩ := h
  cases h9
  exact ⟨l1, t1, stmp, xi, tr, h1, h2, h3, h4, h5, h6, h7, h8, rfl⟩

/-- An invariant that every successful iteration carries from `i` to `i + 1`
holds, at some index past the end of the series, when the loop is over. -/
theorem loop_invariant (p : Args F) (P : Int → Out F → Prop) (lo : Int)
    (hstep : ∀ i m m', lo ≤ i → i < p.xl → P i m → step p i m = some m' → P (i + 1) m') :
    ∀ (fuel : Nat) (i : Int) (m m' : Out F), lo ≤ i → P i m →
      loop p fuel i m = some m' → ∃ j, i ≤ j ∧ p.xl ≤ j ∧ (j = i ∨ j = p.xl) ∧ P j m' := by
  intro fuel
  induction fuel with
  | zero =>
    intro i m m' _ hP h
    simp only [loop] at h
    split at h
    · cases h
    · cases h
      exact ⟨i, le_refl _, by omega, Or.inl rfl, hP⟩
  | succ fuel ih =>
    intro i m m' hlo hP h
    simp only [loop] at h
    split at h
    · rename_i hlt
      obtain ⟨m1, hs, hl⟩ := Option.bind_eq_some.mp h
      obtain ⟨j, h1, h2, h3, h4⟩ :=
        ih (i + 1) m1 m' (by omega) (hstep i m m1 hlo hlt hP hs) hl
      exact ⟨j, by omega, h2, Or.inr (by omega), h4⟩
    · cases h
      exact ⟨i, le_refl _, by omega, Or.inl rfl, hP⟩

/-- The loop has a result when every iteration it reaches has one and the
fuel covers the remaining iterations. -/
theorem loop_isSome (p : Args F) (P : Int → Out F → Prop) (lo : Int)
    (hstep : ∀ i m, lo ≤ i → i < p.xl → P i m → ∃ m', step p i m = some m' ∧ P (i + 1) m') :
    ∀ (fuel : Nat) (i : Int) (m : Out F), lo ≤ i → P i m → p.xl - i ≤ (fuel : Int) →
      ∃ m', loop p fuel i m = some m' := by
  intro fuel
  induction fuel with
  | zero =>
    intro i m _ _ hf
    have : ¬ i < p.xl := by omega
    exact ⟨m, by simp [loop, this]⟩
  | succ fuel ih =>
    intro i m hlo hP hf
    by_cases hlt : i < p.xl
    · obtain ⟨m1, hs, hP1⟩ := hstep i m hlo hlt hP
      obtain ⟨m', hm'⟩ := ih (i + 1) m1 (by omega) hP1 (by push_cast at hf; omega)
      exact ⟨m', by simp [loop, hlt, hs, hm']⟩
    · exact ⟨m, by simp [loop, hlt]⟩

end StepLemmas

/-! ## Frame and recurrence invariants -/

section Frame
variable {F : Type} [Add F] [Sub F] [Mul F] [Div F] [Zero F] [One F] [LT F]
  [DecidableRel (fun u v : F => u < v)]

/-- An iteration writes `level[i0]`, `trend[i0]` (when `beta > 0`) and
`season[s0]` (when `gamma > 0`) and nothing else; no buffer changes size. -/
theorem step_frame {p : Args F} {i : Int} {m m' : Out F} (h : step p i m = some m') :
    (∀ j, j ≠ i - p.start_time + 2 → rd m'.level j = rd m.level j) ∧
    (∀ j, j ≠ i - p.start_time + 2 → rd m'.trend j = rd m.trend j) ∧
    (∀ j, j ≠ i - p.start_time + 2 + p.period - 1 → rd m'.season j = rd m.season j) ∧
    (¬ p.beta > 0 → m'.trend = m.trend) ∧
    (¬ p.gamma > 0 → m'.season = m.season) ∧
    m'.level.length = m.level.length ∧ m'.trend.length = m.trend.length ∧
    m'.season.length = m.season.length := by
  obtain ⟨l1, t1, stmp, xi, tr, _, _, _, _, _, h6, h7, h8, _⟩ := step_eq_some h
  have ht : (∀ j, j ≠ i - p.start_time + 2 → rd m'.trend j = rd m.trend j) ∧
      (¬ p.beta > 0 → m'.trend = m.trend) ∧ m'.trend.length = m.trend.length := by
    by_cases hb : p.beta > 0
    · rw [if_pos hb] at h7
      exact ⟨fun j hj => rd_wr_ne h7 hj, fun hn => absurd hb hn, wr_length h7⟩
    · rw [if_neg hb] at h7
      have e := Option.some.inj h7
      exact ⟨fun _ _ => by rw [e], fun _ => e.symm, by rw [e]⟩
  have hs : (∀ j, j ≠ i - p.start_time + 2 + p.period - 1 → rd m'.season j = rd m.season j) ∧
      (¬ p.gamma > 0 → m'.season = m.season) ∧ m'.season.length = m.season.length := by
    by_cases hg : p.gamma > 0
    · rw [if_pos hg] at h8
      exact ⟨fun j hj => rd_wr_ne h8 hj, fun hn => absurd hg hn, wr_length h8⟩
    · rw [if_neg hg] at h8
      have e := Option.some.inj h8
      exact ⟨fun _ _ => by rw [e], fun _ => e.symm, by rw [e]⟩
  exact ⟨fun j hj => rd_wr_ne h6 hj, ht.1, hs.1, ht.2.1, hs.2.1, wr_length h6, ht.2.2, hs.2.2⟩

/-- Entries below the first step index of the loop survive the loop. -/
theorem loop_frame {p : Args F} {fuel : Nat} {i : Int} {m m' : Out F}
    (h : loop p fuel i m = some m') :
    (∀ j, j < i - p.start_time + 2 → rd m'.level j = rd m.level j) ∧
    (∀ j, j < i - p.start_time + 2 → rd m'.trend j = rd m.trend j) ∧
    (∀ j, j < i - p.start_time + 2 + p.period - 1 → rd m'.season j = rd m.season j) := by
  obtain ⟨_, _, _, _, hP⟩ := loop_invariant p
    (fun _ m2 =>
      (∀ j, j < i - p.start_time + 2 → rd m2.level j = rd m.level j) ∧
      (∀ j, j < i - p.start_time + 2 → rd m2.trend j = rd m.trend j) ∧
      (∀ j, j < i - p.start_time + 2 + p.period - 1 → rd m2.season j = rd m.season j)) i
    (by
      intro i1 m1 m2 hi1 _ hP hs
      obtain ⟨f1, f2, f3, _⟩ := step_frame hs
      refine ⟨fun j hj => ?_, fun j hj => ?_, fun j hj => ?_⟩
      · rw [f1 j (by omega)]; exact hP.1 j hj
      · rw [f2 j (by omega)]; exact hP.2.1 j hj
      · rw [f3 j (by omega)]; exact hP.2.2 j hj)
    fuel i m m' (le_refl _) ⟨fun _ _ => rfl, fun _ _ => rfl, fun _ _ => rfl⟩ h
  exact hP

/-- A disabled component's buffer is untouched by the loop; no buffer changes size. -/
theorem loop_same {p : Args F} {fuel : Nat} {i : Int} {m m' : Out F}
    (h : loop p fuel i m = some m') :
    (¬ p.beta > 0 → m'.trend = m.trend) ∧ (¬ p.gamma > 0 → m'.season = m.season) ∧
    m'.level.length = m.level.length ∧ m'.trend.length = m.trend.length ∧
    m'.season.length = m.season.length := by
  obtain ⟨_, _, _, _, hP⟩ := loop_invariant p
    (fun _ m2 =>
      (¬ p.beta > 0 → m2.trend = m.trend) ∧ (¬ p.gamma > 0 → m2.season = m.season) ∧
      m2.level.length = m.level.length ∧ m2.trend.length = m.trend.length ∧
      m2.season.length = m.season.length) i
    (by
      intro i1 m1 m2 _ _ hP hs
      obtain ⟨_, _, _, f4, f5, f6, f7, f8⟩ := step_frame hs
      exact ⟨fun hb => (f4 hb).trans (hP.1 hb), fun hg => (f5 hg).trans (hP.2.1 hg),
        f6.trans hP.2.2.1, f7.trans hP.2.2.2.1, f8.trans hP.2.2.2.2⟩)
    fuel i m m' (le_refl _) ⟨fun _ => rfl, fun _ => rfl, rfl, rfl, rfl⟩ h
  exact hP

/-- A recorded step stays recorded when the entries it mentions are kept. -/
theorem StepDone.of_agree {p : Args F} {m m1 : Out F} {k : Int}
    (hl : ∀ j, j ≤ k → rd m1.level j = rd m.level j)
    (ht : ∀ j, j ≤ k → rd m1.trend j = rd m.trend j)
    (hs : p.gamma > 0 → ∀ j, j ≤ k - 1 + p.period → rd m1.season j = rd m.season j)
    (hp : p.gamma > 0 → 0 ≤ p.period) (h : StepDone p m k) : StepDone p m1 k := by
  obtain ⟨l0, tr, stmp, y, h1, h2, h3, h4, h5, h6, h7⟩ := h
  refine ⟨l0, tr, stmp, y, ?_, ?_, ?_, h4, ?_, ?_, ?_⟩
  · rw [hl _ (by omega)]; exact h1
  · rw [ht _ (by omega)]; exact h2
  · by_cases hg : p.gamma > 0
    · have := hp hg
      rw [if_pos hg] at h3 ⊢
      rw [hs hg _ (by omega)]; exact h3
    · rw [if_neg hg] at h3 ⊢
      exact h3
  · rw [hl _ (by omega)]; exact h5
  · intro hb; rw [ht _ (by omega)]; exact h6 hb
  · intro hg; rw [hs hg _ (le_refl _)]; exact h7 hg

/-- A successful iteration records its step, provided the seasonal write does
not land on the cell the seasonal term was read from. -/
theorem step_stepDone {p : Args F} {i : Int} {m m' : Out F}
    (hp : p.gamma > 0 → 1 ≤ p.period) (h : step p i m = some m') :
    StepDone p m' (i - p.start_time + 2) := by
  obtain ⟨l1, t1, stmp, xi, tr, h1, _, h3, h4, h5, h6, h7, h8, _⟩ := step_eq_some h
  obtain ⟨f1, f2, f3, _⟩ := step_frame h
  have e : i - p.start_time + 2 + p.period - 1 - p.period = i - p.start_time + 2 - 1 := by omega
  have ex : p.start_time - 2 + (i - p.start_time + 2) = i := by omega
  have es : i - p.start_time + 2 - 1 + p.period = i - p.start_time + 2 + p.period - 1 := by omega
  rw [e] at h3
  refine ⟨l1, tr, stmp, xi, ?_, ?_, ?_, ?_, rd_wr_same h6, ?_, ?_⟩
  · rw [f1 _ (by omega)]; exact h1
  · rw [f2 _ (by omega)]; exact h5
  · by_cases hg : p.gamma > 0
    · have := hp hg
      rw [if_pos hg] at h3 ⊢
      rw [f3 _ (by omega)]; exact h3
    · rw [if_neg hg] at h3 ⊢
      exact h3
  · rw [ex]; exact h4
  · intro hb
    rw [if_pos hb] at h7
    exact rd_wr_same h7
  · intro hg
    rw [if_pos hg] at h8
    rw [es]
    exact rd_wr_same h8

/-- Every step the loop has gone through is recorded in the buffers it leaves. -/
theorem loop_stepDone {p : Args F} {fuel : Nat} {m m' : Out F}
    (hp : p.gamma > 0 → 1 ≤ p.period)
    (h : loop p fuel (p.start_time - 1) m = some m') :
    ∀ k, 1 ≤ k → k ≤ p.xl - p.start_time + 1 → StepDone p m' k := by
  obtain ⟨j, _, hj, _, hP⟩ := loop_invariant p
    (fun i m2 => ∀ k, 1 ≤ k → k < i - p.start_time + 2 → StepDone p m2 k) (p.start_time - 1)
    (by
      intro i m1 m2 hi _ hP hs k hk1 hk2
      obtain ⟨f1, f2, f3, _⟩ := step_frame hs
      by_cases hk : k = i - p.start_time + 2
      · rw [hk]; exact step_stepDone hp hs
      · exact StepDone.of_agree (fun j hj => f1 j (by omega)) (fun j hj => f2 j (by omega))
          (fun hg j hj => f3 j (by have := hp hg; omega)) (fun hg => by have := hp hg; omega)
          (hP k hk1 (by omega)))
    fuel (p.start_time - 1) m m' (le_refl _) (fun k hk1 hk2 => by omega) h
  intro k hk1 hk2
  exact hP k hk1 (by omega)

end Frame

/-! ## Termination and bounds -/

section Run
variable {F : Type} [Add F] [Sub F] [Mul F] [Div F] [Zero F] [One F] [LT F]
  [DecidableRel (fun u v : F => u < v)]

/-- The parts of a successful call: the three seed copies and the loop. -/
theorem HoltWinters_eq_some {p : Args F} {m m' : Out F} (h : HoltWinters p m = some m') :
    ∃ level trend season,
      wr m.level 0 p.a = some level ∧
      (if p.beta > 0 then wr m.trend 0 p.b else some m.trend) = some trend ∧
      (if p.gamma > 0 then memcpy m.season p.s p.period else some m.season) = some season ∧
      loop p (p.xl - (p.start_time - 1)).toNat (p.start_time - 1)
        { SSE := m.SSE, level := level, trend := trend, season := season } = some m' := by
  simp only [HoltWinters, Option.bind_eq_some] at h
  obtain ⟨level, h1, trend, h2, season, h3, h4⟩ := h
  exact ⟨level, trend, season, h1, h2, h3, h4⟩

/-- An iteration whose indices are inside the buffers has a result. -/
theorem step_isSome (p : Args F) (i : Int) (m : Out F)
    (hi : 0 ≤ i) (hx : i < (p.x.length : Int)) (hi0 : 1 ≤ i - p.start_time + 2)
    (hl : i - p.start_time + 2 < (m.level.length : Int))
    (ht : i - p.start_time + 2 - 1 < (m.trend.length : Int))
    (ht' : p.beta > 0 → i - p.start_time + 2 < (m.trend.length : Int))
    (hs : p.gamma > 0 → 0 ≤ p.period ∧
      i - p.start_time + 2 + p.period - 1 < (m.season.length : Int)) :
    ∃ m', step p i m = some m' := by
  obtain ⟨l1, h1⟩ := rd_of_lt m.level (i := i - p.start_time + 2 - 1) (by omega) (by omega)
  obtain ⟨tr, h5⟩ := rd_of_lt m.trend (i := i - p.start_time + 2 - 1) (by omega) ht
  obtain ⟨xi, h4⟩ := rd_of_lt p.x hi hx
  have h2 : (if p.beta > 0 then some tr else some (0 : F))
      = some (if p.beta > 0 then tr else 0) := by
    split <;> rfl
  have h3 : ∃ stmp, (if p.gamma > 0 then
      rd m.season (i - p.start_time + 2 + p.period - 1 - p.period)
      else some (if p.seasonal ≠ 1 then 1 else 0)) = some stmp := by
    by_cases hg : p.gamma > 0
    · obtain ⟨hp, hlen⟩ := hs hg
      obtain ⟨v, hv⟩ := rd_of_lt m.season
        (i := i - p.start_time + 2 + p.period - 1 - p.period) (by omega) (by omega)
      exact ⟨v, by rw [if_pos hg, hv]⟩
    · exact ⟨_, by rw [if_neg hg]⟩
  obtain ⟨stmp, h3⟩ := h3
  have h7 : ∀ v, ∃ t, (if p.beta > 0 then wr m.trend (i - p.start_time + 2) v
      else some m.trend) = some t := by
    intro v
    by_cases hb : p.beta > 0
    · exact ⟨_, by rw [if_pos hb, wr_of_lt m.trend v (by omega) (ht' hb)]⟩
    · exact ⟨_, by rw [if_neg hb]⟩
  have h8 : ∀ v, ∃ t, (if p.gamma > 0 then wr m.season (i - p.start_time + 2 + p.period - 1) v
      else some m.season) = some t := by
    intro v
    by_cases hg : p.gamma > 0
    · obtain ⟨hp, hlen⟩ := hs hg
      exact ⟨_, by rw [if_pos hg, wr_of_lt m.season v (by omega) hlen]⟩
    · exact ⟨_, by rw [if_neg hg]⟩
  obtain ⟨t, h7⟩ := h7 (trendEst p.beta (levelEst p.seasonal p.alpha xi stmp l1 tr) l1 tr)
  obtain ⟨sn, h8⟩ := h8
    (seasonEst p.seasonal p.gamma xi (levelEst p.seasonal p.alpha xi stmp l1 tr) stmp)
  have h6 := wr_of_lt m.level (levelEst p.seasonal p.alpha xi stmp l1 tr)
    (i := i - p.start_time + 2) (by omega) hl
  apply Option.isSome_iff_exists.mp
  simp only [step, h1, h2, h3, h4, h5, h6, h7, h8, Option.some_bind, Option.isSome_some]

/-- Under the caller contract on sizes the call has a result: no access leaves
its buffer and the fuel of the loop is enough. -/
theorem HoltWinters_isSome (p : Args F) (m : Out F)
    (hst : 1 ≤ p.start_time) (hxl : p.start_time - 1 ≤ p.xl)
    (hper : p.gamma > 0 → 0 ≤ p.period) (hsz : Sized p m) :
    ∃ m', HoltWinters p m = some m' := by
  obtain ⟨hx, hl, ht, hs⟩ := hsz
  have h1 := wr_of_lt m.level p.a (i := 0) (le_refl _) (by omega)
  have h2 : ∃ t, (if p.beta > 0 then wr m.trend 0 p.b else some m.trend) = some t ∧
      t.length = m.trend.length := by
    by_cases hb : p.beta > 0
    · exact ⟨_, by rw [if_pos hb, wr_of_lt m.trend p.b (i := 0) (le_refl _) (by omega)], by simp⟩
    · exact ⟨_, by rw [if_neg hb], rfl⟩
  obtain ⟨t, h2, h2l⟩ := h2
  have h3 : ∃ sn, (if p.gamma > 0 then memcpy m.season p.s p.period else some m.season)
      = some sn ∧ sn.length = m.season.length := by
    by_cases hg : p.gamma > 0
    · have hp := hper hg
      obtain ⟨hs1, hs2⟩ := hs hg
      have hc : memcpy m.season p.s p.period
          = some (p.s.take p.period.toNat ++ m.season.drop p.period.toNat) := by
        unfold memcpy
        rw [if_pos ⟨hp, hs1, by omega⟩]
      exact ⟨_, by rw [if_pos hg, hc], memcpy_length hc⟩
    · exact ⟨_, by rw [if_neg hg], rfl⟩
  obtain ⟨sn, h3, h3l⟩ := h3
  obtain ⟨m', hm'⟩ := loop_isSome p
    (fun _ m2 => m2.level.length = m.level.length ∧ m2.trend.length = m.trend.length ∧
      m2.season.length = m.season.length) (p.start_time - 1)
    (by
      intro i m2 hlo hlt ⟨e1, e2, e3⟩
      obtain ⟨m3, hm3⟩ := step_isSome p i m2 (by omega) (by omega) (by omega)
        (by rw [e1]; omega) (by rw [e2]; omega) (fun _ => by rw [e2]; omega)
        (fun hg => ⟨hper hg, by rw [e3]; have := (hs hg).2; omega⟩)
      obtain ⟨_, _, _, _, _, f6, f7, f8⟩ := step_frame hm3
      exact ⟨m3, hm3, f6.trans e1, f7.trans e2, f8.trans e3⟩)
    (p.xl - (p.start_time - 1)).toNat (p.start_time - 1)
    { SSE := m.SSE, level := m.level.set (0 : Int).toNat p.a, trend := t, season := sn }
    (le_refl _) ⟨by simp, h2l, h3l⟩ (by omega)
  exact ⟨m', by simp only [HoltWinters, h1, h2, h3, Option.some_bind, hm']⟩

end Run

/-! ## The accumulated error -/

section Results
variable {F : Type} [Add F] [Sub F] [Mul F] [Div F] [Zero F] [One F] [LT F]
  [DecidableRel (fun u v : F => u < v)]

/-- The recomputed sum only looks at the entries below `n`. -/
theorem sseUpTo_agree (p : Args F) (m m1 : Out F) (sse0 : F) :
    ∀ n : Nat, (∀ j : Int, j < n → rd m1.level j = rd m.level j) →
      (∀ j : Int, j < n → rd m1.trend j = rd m.trend j) →
      (∀ j : Int, j < n → rd m1.season j = rd m.season j) →
      sseUpTo p m1 sse0 n = sseUpTo p m sse0 n := by
  intro n
  induction n with
  | zero => intro _ _ _; rfl
  | succ n ih =>
    intro hl ht hs
    simp only [sseUpTo]
    rw [ih (fun j hj => hl j (by push_cast; omega)) (fun j hj => ht j (by push_cast; omega))
      (fun j hj => hs j (by push_cast; omega)),
      hl n (by push_cast; omega), ht n (by push_cast; omega), hs n (by push_cast; omega)]

/-- After the loop, `SSE` is its value before the loop plus the squared errors
of all steps, in step order, each forecast being the one the buffers give. -/
theorem loop_sse {p : Args F} {fuel : Nat} {m m' : Out F}
    (hxl : p.start_time - 1 ≤ p.xl) (hp : p.gamma > 0 → 1 ≤ p.period)
    (h : loop p fuel (p.start_time - 1) m = some m') :
    sseUpTo p m' m.SSE (p.xl - p.start_time + 1).toNat = some m'.SSE := by
  obtain ⟨j, _, hj, hj', d, hd, hP⟩ := loop_invariant p
    (fun i m2 => ∃ d : Nat, (d : Int) = i - p.start_time + 1 ∧
      sseUpTo p m2 m.SSE d = some m2.SSE) (p.start_time - 1)
    (by
      intro i m1 m2 hi _ ⟨d, hd, hP⟩ hs
      obtain ⟨f1, f2, f3, f4, f5, _⟩ := step_frame hs
      obtain ⟨l1, t1, stmp, xi, tr, h1, h2, h3, h4, _, _, _, _, h9⟩ := step_eq_some hs
      have e0 : i - p.start_time + 2 - 1 = (d : Int) := by omega
      have e1 : i - p.start_time + 2 + p.period - 1 - p.period = (d : Int) := by omega
      have e2 : p.start_time - 1 + (d : Int) = i := by omega
      rw [e0] at h1 h2
      rw [e1] at h3
      have hsea : ∀ j : Int, j ≤ d → rd m2.season j = rd m1.season j := by
        intro j hj
        by_cases hg : p.gamma > 0
        · have := hp hg
          exact f3 j (by omega)
        · rw [f5 hg]
      refine ⟨d + 1, by push_cast; omega, ?_⟩
      simp only [sseUpTo]
      rw [sseUpTo_agree p m1 m2 m.SSE d (fun j hj => f1 j (by omega))
        (fun j hj => f2 j (by omega)) (fun j hj => hsea j (by omega)), hP,
        f1 d (by omega), f2 d (by omega), hsea d (le_refl _), e2, h1, h2, h3, h4, h9]
      rfl)
    fuel (p.start_time - 1) m m' (le_refl _) ⟨0, by push_cast; omega, rfl⟩ h
  have : (p.xl - p.start_time + 1).toNat = d := by omega
  rw [this]
  exact hP

end Results

/-! ## The call as a whole -/

section RunLemmas
variable {F : Type} [Add F] [Sub F] [Mul F] [Div F] [Zero F] [One F] [LT F]
  [DecidableRel (fun u v : F => u < v)]

/-- The seed entries are in place after the call. -/
theorem HoltWinters_seed {p : Args F} {m m' : Out F} (h : HoltWinters p m = some m') :
    rd m'.level 0 = some p.a ∧ (p.beta > 0 → rd m'.trend 0 = some p.b) ∧
    (p.gamma > 0 → ∀ j, 0 ≤ j → j < p.period → rd m'.season j = rd p.s j) := by
  obtain ⟨level, trend, season, h1, h2, h3, h4⟩ := HoltWinters_eq_some h
  obtain ⟨f1, f2, f3⟩ := loop_frame h4
  refine ⟨?_, fun hb => ?_, fun hg j _ hj => ?_⟩
  · rw [f1 0 (by omega)]
    exact rd_wr_same h1
  · rw [f2 0 (by omega)]
    rw [if_pos hb] at h2
    exact rd_wr_same h2
  · rw [f3 j (by omega)]
    rw [if_pos hg] at h3
    exact rd_memcpy_lt h3 hj

/-- A disabled component's buffer is returned as it was; sizes never change. -/
theorem HoltWinters_frame {p : Args F} {m m' : Out F} (h : HoltWinters p m = some m') :
    (¬ p.beta > 0 → m'.trend = m.trend) ∧ (¬ p.gamma > 0 → m'.season = m.season) ∧
    m'.level.length = m.level.length ∧ m'.trend.length = m.trend.length ∧
    m'.season.length = m.season.length := by
  obtain ⟨level, trend, season, h1, h2, h3, h4⟩ := HoltWinters_eq_some h
  obtain ⟨g1, g2, g3, g4, g5⟩ := loop_same h4
  refine ⟨fun hb => ?_, fun hg => ?_, g3.trans (wr_length h1), ?_, ?_⟩
  · rw [if_neg hb] at h2
    rw [g1 hb]
    exact (Option.some.inj h2).symm
  · rw [if_neg hg] at h3
    rw [g2 hg]
    exact (Option.some.inj h3).symm
  · by_cases hb : p.beta > 0
    · rw [if_pos hb] at h2
      exact g4.trans (wr_length h2)
    · rw [if_neg hb] at h2
      rw [g4]
      exact congrArg List.length (Option.some.inj h2).symm
  · by_cases hg : p.gamma > 0
    · rw [if_pos hg] at h3
      exact g5.trans (memcpy_length h3)
    · rw [if_neg hg] at h3
      rw [g5]
      exact congrArg List.length (Option.some.inj h3).symm

/-- Every step of the call is recorded in the buffers it returns. -/
theorem HoltWinters_stepDone {p : Args F} {m m' : Out F}
    (hp : p.gamma > 0 → 1 ≤ p.period) (h : HoltWinters p m = some m') :
    ∀ k, 1 ≤ k → k ≤ p.xl - p.start_time + 1 → StepDone p m' k := by
  obtain ⟨level, trend, season, _, _, _, h4⟩ := HoltWinters_eq_some h
  exact loop_stepDone hp h4

/-- The returned `SSE` is the value the cell held before the call plus the
squared one-step-ahead errors of all steps, added in step order. -/
theorem HoltWinters_sse {p : Args F} {m m' : Out F}
    (hxl : p.start_time - 1 ≤ p.xl) (hp : p.gamma > 0 → 1 ≤ p.period)
    (h : HoltWinters p m = some m') :
    sseUpTo p m' m.SSE (p.xl - p.start_time + 1).toNat = some m'.SSE := by
  obtain ⟨level, trend, season, _, _, _, h4⟩ := HoltWinters_eq_some h
  have h5 := loop_sse hxl hp h4
  exact h5

end RunLemmas

/-! ## The claims -/

/-- C1 (the code departs from it): the returned `SSE` is not the sum of squared
one-step-ahead errors alone.  `HoltWinters` never resets `*SSE`; on a run whose
only forecast is exact (sum of squared errors `0`) with `5` left in the cell,
it returns `5`. -/
theorem C1_sse_keeps_prior_value :
    ∃ m', HoltWinters exactArgs staleSseOut = some m' ∧ m'.SSE = 5 ∧
      sseUpTo exactArgs m' 0 1 = some 0 :=
  ⟨{ SSE := 5, level := [1, 1], trend := [0, 0], season := [] }, by decide!, rfl, by decide!⟩

section Generic
variable {F : Type} [Add F] [Sub F] [Mul F] [Div F] [Zero F] [One F] [LT F]
  [DecidableRel (fun u v : F => u < v)]

/-- C2: additive recurrence.  With `beta > 0`, `gamma > 0`, `period >= 1` and
`seasonal == 1`, a call under the caller contract returns, and for every step
`k = 1 .. xl - start_time + 1`, with `y = x[start_time - 2 + k]`, the returned
buffers satisfy `level[k] = alpha*(y - season[k-1]) + (1-alpha)*(level[k-1] + trend[k-1])`,
`trend[k] = beta*(level[k] - level[k-1]) + (1-beta)*trend[k-1]` and
`season[k-1+period] = gamma*(y - level[k]) + (1-gamma)*season[k-1]`. -/
theorem C2_additive_recurrence (p : Args F) (m : Out F)
    (hst : 1 ≤ p.start_time) (hxl : p.start_time ≤ p.xl)
    (hb : p.beta > 0) (hg : p.gamma > 0) (hper : 1 ≤ p.period) (hadd : p.seasonal = 1)
    (hsz : Sized p m) :
    ∃ m', HoltWinters p m = some m' ∧
      ∀ k : Int, 1 ≤ k → k ≤ p.xl - p.start_time + 1 →
        ∃ y l0 t0 s0 lk,
          rd p.x (p.start_time - 2 + k) = some y ∧
          rd m'.level (k - 1) = some l0 ∧ rd m'.trend (k - 1) = some t0 ∧
          rd m'.season (k - 1) = some s0 ∧
          rd m'.level k = some lk ∧
          lk = p.alpha * (y - s0) + (1 - p.alpha) * (l0 + t0) ∧
          rd m'.trend k = some (p.beta * (lk - l0) + (1 - p.beta) * t0) ∧
          rd m'.season (k - 1 + p.period) = some (p.gamma * (y - lk) + (1 - p.gamma) * s0) := by
  obtain ⟨m', hm'⟩ := HoltWinters_isSome p m hst (by omega) (fun _ => by omega) hsz
  refine ⟨m', hm', fun k hk1 hk2 => ?_⟩
  obtain ⟨l0, tr, stmp, y, h1, h2, h3, h4, h5, h6, h7⟩ :=
    HoltWinters_stepDone (fun _ => hper) hm' k hk1 hk2
  rw [if_pos hg] at h3
  have h6' := h6 hb
  have h7' := h7 hg
  simp only [levelEst, trendEst, seasonEst, hadd, if_true] at h5 h6' h7'
  exact ⟨y, l0, tr, stmp, _, h4, h1, h2, h3, h5, rfl, h6', h7'⟩

end Generic

/-- C2 at a concrete run: `seasonalArgs` with zero-filled buffers. -/
theorem C2_additive_recurrence_witness :
    ∃ m', HoltWinters seasonalArgs seasonalOut = some m' ∧
      ∀ k : Int, 1 ≤ k → k ≤ seasonalArgs.xl - seasonalArgs.start_time + 1 →
        ∃ y l0 t0 s0 lk,
          rd seasonalArgs.x (seasonalArgs.start_time - 2 + k) = some y ∧
          rd m'.level (k - 1) = some l0 ∧ rd m'.trend (k - 1) = some t0 ∧
          rd m'.season (k - 1) = some s0 ∧
          rd m'.level k = some lk ∧
          lk = seasonalArgs.alpha * (y - s0) + (1 - seasonalArgs.alpha) * (l0 + t0) ∧
          rd m'.trend k = some (seasonalArgs.beta * (lk - l0) + (1 - seasonalArgs.beta) * t0) ∧
          rd m'.season (k - 1 + seasonalArgs.period)
            = some (seasonalArgs.gamma * (y - lk) + (1 - seasonalArgs.gamma) * s0) :=
  C2_additive_recurrence seasonalArgs seasonalOut (by decide) (by decide) (by decide!)
    (by decide!) (by decide) (by decide) (by decide!)

section Generic
variable {F : Type} [Add F] [Sub F] [Mul F] [Div F] [Zero F] [One F] [LT F]
  [DecidableRel (fun u v : F => u < v)]

/-- In multiplicative mode with trend and seasonal component enabled, the sum
recomputed with the code's forecast is the sum with the forecast
`(level[k-1] + trend[k-1]) * season[k-1]`. -/
theorem sseUpTo_eq_sseMultiplicative (p : Args F) (m : Out F) (sse0 : F)
    (hb : p.beta > 0) (hg : p.gamma > 0) (hmul : p.seasonal ≠ 1) (n : Nat) :
    sseUpTo p m sse0 n = sseMultiplicative p m sse0 n := by
  induction n with
  | zero => rfl
  | succ n ih =>
    simp only [sseUpTo, sseMultiplicative, ih, if_pos hb, if_pos hg, forecast, if_neg hmul]

/-- C3: multiplicative recurrence.  With `beta > 0`, `gamma > 0`, `period >= 1`
and `seasonal != 1`, a call under the caller contract returns, and for every
step `k = 1 .. xl - start_time + 1`, with `y = x[start_time - 2 + k]`, the
returned buffers satisfy
`level[k] = alpha*(y / season[k-1]) + (1-alpha)*(level[k-1] + trend[k-1])`,
`trend[k] = beta*(level[k] - level[k-1]) + (1-beta)*trend[k-1]` and
`season[k-1+period] = gamma*(y / level[k]) + (1-gamma)*season[k-1]`; the error
added to `SSE` at step `k` is the squared distance of `y` from the forecast
`(level[k-1] + trend[k-1]) * season[k-1]`. -/
theorem C3_multiplicative_recurrence (p : Args F) (m : Out F)
    (hst : 1 ≤ p.start_time) (hxl : p.start_time ≤ p.xl)
    (hb : p.beta > 0) (hg : p.gamma > 0) (hper : 1 ≤ p.period) (hmul : p.seasonal ≠ 1)
    (hsz : Sized p m) :
    ∃ m', HoltWinters p m = some m' ∧
      (∀ k : Int, 1 ≤ k → k ≤ p.xl - p.start_time + 1 →
        ∃ y l0 t0 s0 lk,
          rd p.x (p.start_time - 2 + k) = some y ∧
          rd m'.level (k - 1) = some l0 ∧ rd m'.trend (k - 1) = some t0 ∧
          rd m'.season (k - 1) = some s0 ∧
          rd m'.level k = some lk ∧
          lk = p.alpha * (y / s0) + (1 - p.alpha) * (l0 + t0) ∧
          rd m'.trend k = some (p.beta * (lk - l0) + (1 - p.beta) * t0) ∧
          rd m'.season (k - 1 + p.period) = some (p.gamma * (y / lk) + (1 - p.gamma) * s0)) ∧
      sseMultiplicative p m' m.SSE (p.xl - p.start_time + 1).toNat = some m'.SSE := by
  obtain ⟨m', hm'⟩ := HoltWinters_isSome p m hst (by omega) (fun _ => by omega) hsz
  refine ⟨m', hm', fun k hk1 hk2 => ?_, ?_⟩
  · obtain ⟨l0, tr, stmp, y, h1, h2, h3, h4, h5, h6, h7⟩ :=
      HoltWinters_stepDone (fun _ => hper) hm' k hk1 hk2
    rw [if_pos hg] at h3
    have h6' := h6 hb
    have h7' := h7 hg
    simp only [levelEst, trendEst, seasonEst, if_neg hmul] at h5 h6' h7'
    exact ⟨y, l0, tr, stmp, _, h4, h1, h2, h3, h5, rfl, h6', h7'⟩
  · rw [← sseUpTo_eq_sseMultiplicative p m' m.SSE hb hg hmul]
    exact HoltWinters_sse (by omega) (fun _ => hper) hm'

/-- C5: seed propagation.  A call under the caller contract with
`start_time >= 1` and `period >= 0` returns with `level[0]` equal to the seed
level, `trend[0]` equal to the seed trend when `beta > 0`, and
`season[j] = s[j]` for every `j` in `0 .. period-1` when `gamma > 0`: the seed
entries survive all recurrence steps. -/
theorem C5_seed_propagation (p : Args F) (m : Out F)
    (hst : 1 ≤ p.start_time) (hxl : p.start_time - 1 ≤ p.xl) (hper : 0 ≤ p.period)
    (hsz : Sized p m) :
    ∃ m', HoltWinters p m = some m' ∧
      rd m'.level 0 = some p.a ∧
      (p.beta > 0 → rd m'.trend 0 = some p.b) ∧
      (p.gamma > 0 → ∀ j : Int, 0 ≤ j → j < p.period →
        ∃ v, rd p.s j = some v ∧ rd m'.season j = some v) := by
  obtain ⟨m', hm'⟩ := HoltWinters_isSome p m hst hxl (fun _ => hper) hsz
  obtain ⟨h1, h2, h3⟩ := HoltWinters_seed hm'
  refine ⟨m', hm', h1, h2, fun hg j hj0 hj1 => ?_⟩
  obtain ⟨v, hv⟩ := rd_of_lt p.s hj0 (by have := (hsz.2.2.2 hg).1; omega)
  exact ⟨v, hv, by rw [h3 hg j hj0 hj1, hv]⟩

/-- C9: index safety under the caller contract.  With `start_time >= 1`,
`xl >= start_time`, `period >= 1` when `gamma > 0`, and buffers of the contract
sizes, every step index `i0 = i - start_time + 2` is at least `1`, and the call
returns: no read or write leaves its buffer. -/
theorem C9_index_safety (p : Args F) (m : Out F)
    (hst : 1 ≤ p.start_time) (hxl : p.start_time ≤ p.xl)
    (hper : p.gamma > 0 → 1 ≤ p.period) (hsz : Sized p m) :
    (∀ i : Int, p.start_time - 1 ≤ i → i < p.xl → 1 ≤ i - p.start_time + 2) ∧
    ∃ m', HoltWinters p m = some m' :=
  ⟨fun i h1 _ => by omega,
    HoltWinters_isSome p m hst (by omega) (fun hg => by have := hper hg; omega) hsz⟩

end Generic

/-- C3 at a concrete run: `multiplicativeArgs` with zero-filled buffers. -/
theorem C3_multiplicative_recurrence_witness :
    ∃ m', HoltWinters multiplicativeArgs seasonalOut = some m' ∧
      (∀ k : Int, 1 ≤ k → k ≤ multiplicativeArgs.xl - multiplicativeArgs.start_time + 1 →
        ∃ y l0 t0 s0 lk,
          rd multiplicativeArgs.x (multiplicativeArgs.start_time - 2 + k) = some y ∧
          rd m'.level (k - 1) = some l0 ∧ rd m'.trend (k - 1) = some t0 ∧
          rd m'.season (k - 1) = some s0 ∧
          rd m'.level k = some lk ∧
          lk = multiplicativeArgs.alpha * (y / s0) + (1 - multiplicativeArgs.alpha) * (l0 + t0) ∧
          rd m'.trend k
            = some (multiplicativeArgs.beta * (lk - l0) + (1 - multiplicativeArgs.beta) * t0) ∧
          rd m'.season (k - 1 + multiplicativeArgs.period)
            = some (multiplicativeArgs.gamma * (y / lk) + (1 - multiplicativeArgs.gamma) * s0)) ∧
      sseMultiplicative multiplicativeArgs m' seasonalOut.SSE
        (multiplicativeArgs.xl - multiplicativeArgs.start_time + 1).toNat = some m'.SSE :=
  C3_multiplicative_recurrence multiplicativeArgs seasonalOut (by decide) (by decide)
    (by decide!) (by decide!) (by decide) (by decide) (by decide!)

/-- C5 at a concrete run: `seasonalArgs` with zero-filled buffers. -/
theorem C5_seed_propagation_witness :
    ∃ m', HoltWinters seasonalArgs seasonalOut = some m' ∧
      rd m'.level 0 = some seasonalArgs.a ∧
      (seasonalArgs.beta > 0 → rd m'.trend 0 = some seasonalArgs.b) ∧
      (seasonalArgs.gamma > 0 → ∀ j : Int, 0 ≤ j → j < seasonalArgs.period →
        ∃ v, rd seasonalArgs.s j = some v ∧ rd m'.season j = some v) :=
  C5_seed_propagation seasonalArgs seasonalOut (by decide) (by decide) (by decide) (by decide!)

/-- C9 at a concrete run: `seasonalArgs` with zero-filled buffers. -/
theorem C9_index_safety_witness :
    (∀ i : Int, seasonalArgs.start_time - 1 ≤ i → i < seasonalArgs.xl →
      1 ≤ i - seasonalArgs.start_time + 2) ∧
    ∃ m', HoltWinters seasonalArgs seasonalOut = some m' :=
  C9_index_safety seasonalArgs seasonalOut (by decide) (by decide) (by decide!) (by decide!)

/-- C4 (the code departs from it): with `beta = 0` and `gamma = 0` the level is
not the simple exponential smoothing of the series for every prior content of
the trend buffer.  Line 75 reads `trend[i0 - 1]` whether or not `beta > 0`; with
`4` left in the trend buffer, `alpha = 1/2`, `x[0] = 2` and seed level `0` the
call returns `level[1] = 3`, not `alpha*x[0] + (1-alpha)*level[0] = 1`. -/
theorem C4_level_reads_disabled_trend :
    ∃ m' y l0 l1, HoltWinters smoothingArgs staleTrendOut = some m' ∧
      rd smoothingArgs.x 0 = some y ∧ rd m'.level 0 = some l0 ∧ rd m'.level 1 = some l1 ∧
      l1 = 3 ∧ smoothingArgs.alpha * y + (1 - smoothingArgs.alpha) * l0 = 1 :=
  ⟨{ SSE := 4, level := [0, 3], trend := [4, 4], season := [] }, 2, 0, 3,
    by decide!, by decide!, by decide!, by decide!, rfl, by decide!⟩

section Exact
variable {F : Type} [LinearOrderedField F]

/-- Without a seasonal component the two modes run the same iteration: the
implicit seasonal term is `0`, added and subtracted, or `1`, multiplied and
divided by. -/
theorem step_mode_eq (p : Args F) (sm : Int) (hadd : p.seasonal = 1) (hmul : sm ≠ 1)
    (hg : ¬ p.gamma > 0) (i : Int) (m : Out F) :
    step { p with seasonal := sm } i m = step p i m := by
  simp [step, hg, hadd, hmul, forecast, levelEst]

theorem loop_mode_eq (p : Args F) (sm : Int) (hadd : p.seasonal = 1) (hmul : sm ≠ 1)
    (hg : ¬ p.gamma > 0) :
    ∀ (fuel : Nat) (i : Int) (m : Out F),
      loop { p with seasonal := sm } fuel i m = loop p fuel i m := by
  intro fuel
  induction fuel with
  | zero => intro i m; rfl
  | succ fuel ih =>
    intro i m
    simp only [loop, step_mode_eq p sm hadd hmul hg]
    by_cases hlt : i < p.xl
    · rw [if_pos hlt, if_pos hlt]
      congr 1
      funext m1
      exact ih (i + 1) m1
    · rw [if_neg hlt, if_neg hlt]

/-- C7: mode symmetry without seasonality.  When the seasonal component is off
(`gamma` not `> 0`), the additive forecast with the implicit term `0` equals
the multiplicative forecast with the implicit term `1`, and a call in additive
mode (`seasonal == 1`) and the same call in multiplicative mode (any other
`seasonal`) on the same buffers return the same `SSE`, level, trend and season
cells. -/
theorem C7_mode_symmetry (p : Args F) (m : Out F) (sm : Int)
    (hst : 1 ≤ p.start_time) (hxl : p.start_time ≤ p.xl)
    (hadd : p.seasonal = 1) (hmul : sm ≠ 1) (hg : ¬ p.gamma > 0) (hsz : Sized p m) :
    (∀ l t : F, forecast p.seasonal l t 0 = forecast sm l t 1) ∧
    ∃ m', HoltWinters p m = some m' ∧ HoltWinters { p with seasonal := sm } m = some m' := by
  refine ⟨fun l t => by simp [forecast, hadd, hmul], ?_⟩
  obtain ⟨m', hm'⟩ := HoltWinters_isSome p m hst (by omega) (fun h => absurd h hg) hsz
  refine ⟨m', hm', ?_⟩
  rw [← hm']
  simp only [HoltWinters]
  congr 1
  funext level
  congr 1
  funext trend
  congr 1
  funext season
  exact loop_mode_eq p sm hadd hmul hg _ _ _

end Exact

/-- C7 at a concrete run: `smoothingArgs` against its multiplicative twin
(`seasonal = 0`). -/
theorem C7_mode_symmetry_witness :
    (∀ l t : ℚ, forecast smoothingArgs.seasonal l t 0 = forecast 0 l t 1) ∧
    ∃ m', HoltWinters smoothingArgs smoothingOut = some m' ∧
      HoltWinters { smoothingArgs with seasonal := 0 } smoothingOut = some m' :=
  C7_mode_symmetry smoothingArgs smoothingOut 0 (by decide) (by decide) (by decide) (by decide)
    (by decide!) (by decide!)

section Prefix
variable {F : Type} [Add F] [Sub F] [Mul F] [Div F] [Zero F] [One F] [LT F]
  [DecidableRel (fun u v : F => u < v)]

/-- The loop over `xl` values is the loop over the first `xl - 1` values
followed by the iteration for the last one. -/
theorem loop_last (p : Args F) :
    ∀ (fuel : Nat) (i : Int) (m : Out F), i < p.xl →
      loop p (fuel + 1) i m
        = (loop { p with xl := p.xl - 1 } fuel i m).bind (step p (p.xl - 1)) := by
  intro fuel
  induction fuel with
  | zero =>
    intro i m hi
    simp only [loop, if_pos hi]
    by_cases h1 : i < p.xl - 1
    · have h2 : i + 1 < p.xl := by omega
      simp only [if_pos h1, if_pos h2]
      cases step p i m <;> rfl
    · have e : i = p.xl - 1 := by omega
      subst e
      have h2 : ¬ p.xl - 1 + 1 < p.xl := by omega
      simp only [if_neg h1, if_neg h2, Option.some_bind]
      cases step p (p.xl - 1) m <;> rfl
  | succ fuel ih =>
    intro i m hi
    rw [loop, if_pos hi]
    by_cases h1 : i < p.xl - 1
    · have e : loop { p with xl := p.xl - 1 } (fuel + 1) i m
          = (step p i m).bind (loop { p with xl := p.xl - 1 } fuel (i + 1)) := by
        rw [loop, if_pos h1]
        rfl
      rw [e, Option.bind_assoc]
      congr 1
      funext m1
      exact ih (i + 1) m1 (by omega)
    · have e : loop { p with xl := p.xl - 1 } (fuel + 1) i m = some m := by
        rw [loop, if_neg h1]
      have e1 : i = p.xl - 1 := by omega
      rw [e, Option.some_bind, e1]
      have e2 : ∀ m1, loop p (fuel + 1) (p.xl - 1 + 1) m1 = some m1 := by
        intro m1
        rw [loop, if_neg (by omega)]
      simp only [e2]
      cases step p (p.xl - 1) m <;> rfl

/-- The call on `xl` values is the call on the first `xl - 1` values followed
by the iteration for the last one. -/
theorem HoltWinters_last (p : Args F) (m : Out F) (hxl : p.start_time ≤ p.xl) :
    HoltWinters p m
      = (HoltWinters { p with xl := p.xl - 1 } m).bind (step p (p.xl - 1)) := by
  obtain ⟨f, hf⟩ : ∃ f : Nat, (p.xl - (p.start_time - 1)).toNat = f + 1 :=
    ⟨(p.xl - (p.start_time - 1)).toNat - 1, by omega⟩
  have hf' : (p.xl - 1 - (p.start_time - 1)).toNat = f := by omega
  simp only [HoltWinters, hf, hf', Option.bind_assoc]
  congr 1
  funext level
  congr 1
  funext trend
  congr 1
  funext season
  exact loop_last p f _ _ (by omega)

end Prefix

section Monotone
variable {F : Type} [LinearOrderedField F]

/-- The loop never lowers `SSE`: every iteration adds a square. -/
theorem loop_sse_le {p : Args F} {fuel : Nat} {i : Int} {m m' : Out F}
    (h : loop p fuel i m = some m') : m.SSE ≤ m'.SSE := by
  obtain ⟨_, _, _, _, hP⟩ := loop_invariant p (fun _ m2 => m.SSE ≤ m2.SSE) i
    (by
      intro i1 m1 m2 _ _ hP hs
      obtain ⟨l1, t1, stmp, xi, tr, _, _, _, _, _, _, _, _, h9⟩ := step_eq_some hs
      rw [h9]
      exact le_trans hP (le_add_of_nonneg_right (mul_self_nonneg _)))
    fuel i m m' (le_refl _) (le_refl _) h
  exact hP

/-- In exact arithmetic the accumulated error never goes down: the `SSE` of a
call under the caller contract is the `SSE` of the call on the first `xl - 1`
values plus the square of the last residual, so it is no smaller than that
`SSE` and no smaller than the value `SSE` held before the call. -/
theorem sse_accumulation_exact (p : Args F) (m : Out F)
    (hst : 1 ≤ p.start_time) (hxl : p.start_time ≤ p.xl)
    (hper : p.gamma > 0 → 0 ≤ p.period) (hsz : Sized p m) :
    ∃ m1 m2 y l0 t0 stmp,
      HoltWinters { p with xl := p.xl - 1 } m = some m1 ∧
      HoltWinters p m = some m2 ∧
      rd p.x (p.xl - 1) = some y ∧
      rd m1.level (p.xl - p.start_time) = some l0 ∧
      (if p.beta > 0 then rd m1.trend (p.xl - p.start_time) else some 0) = some t0 ∧
      (if p.gamma > 0 then rd m1.season (p.xl - p.start_time)
        else some (if p.seasonal ≠ 1 then 1 else 0)) = some stmp ∧
      m2.SSE = m1.SSE + (y - forecast p.seasonal l0 t0 stmp) ^ 2 ∧
      m1.SSE ≤ m2.SSE ∧ m.SSE ≤ m2.SSE := by
  obtain ⟨m2, hm2⟩ := HoltWinters_isSome p m hst (by omega) hper hsz
  have hsplit := HoltWinters_last p m hxl
  rw [hm2] at hsplit
  obtain ⟨m1, hm1, hs⟩ := Option.bind_eq_some.mp hsplit.symm
  obtain ⟨l1, t1, stmp, y, tr, h1, h2, h3, h4, _, _, _, _, h9⟩ := step_eq_some hs
  have e0 : p.xl - 1 - p.start_time + 2 - 1 = p.xl - p.start_time := by omega
  have e1 : p.xl - 1 - p.start_time + 2 + p.period - 1 - p.period = p.xl - p.start_time := by
    omega
  rw [e0] at h1 h2
  rw [e1] at h3
  have hsq : m2.SSE = m1.SSE + (y - forecast p.seasonal l1 t1 stmp) ^ 2 := by
    rw [h9, pow_two]
  have hle : m1.SSE ≤ m2.SSE := by
    rw [hsq]
    exact le_add_of_nonneg_right (sq_nonneg _)
  obtain ⟨level, trend, season, _, _, _, h4'⟩ := HoltWinters_eq_some hm1
  have h0 := loop_sse_le h4'
  exact ⟨m1, m2, y, l1, t1, stmp, hm1, hm2, h4, h1, h2, h3, hsq, hle, le_trans h0 hle⟩

end Monotone

section LastStep
variable {F : Type} [Add F] [Sub F] [Mul F] [Div F] [Zero F] [One F] [LT F]
  [DecidableRel (fun u v : F => u < v)]

end LastStep

section AnyPeriod
variable {F : Type} [Add F] [Sub F] [Mul F] [Div F] [Zero F] [One F] [LT F]
  [DecidableRel (fun u v : F => u < v)]

/-- Every step the loop has gone through has its level recorded, whatever
`period` is. -/
theorem loop_levelDone {p : Args F} {fuel : Nat} {m m' : Out F}
    (h : loop p fuel (p.start_time - 1) m = some m') :
    ∀ k, 1 ≤ k → k ≤ p.xl - p.start_time + 1 → LevelDone p m m' k := by
  obtain ⟨j, _, hj, _, _, hP⟩ := loop_invariant p
    (fun i m2 =>
      (p.gamma > 0 → p.period = 0 →
        ∀ j, i - p.start_time + 1 ≤ j → rd m2.season j = rd m.season j) ∧
      ∀ k, 1 ≤ k → k < i - p.start_time + 2 → LevelDone p m m2 k) (p.start_time - 1)
    (by
      intro i m1 m2 hi _ ⟨hQ, hP⟩ hs
      obtain ⟨f1, f2, f3, _⟩ := step_frame hs
      refine ⟨fun hg hper j hj => ?_, fun k hk1 hk2 => ?_⟩
      · rw [f3 j (by omega)]
        exact hQ hg hper j (by omega)
      · by_cases hk : k = i - p.start_time + 2
        · obtain ⟨l1, t1, stmp, xi, tr, h1, _, h3, h4, h5, h6, h7, h8, _⟩ := step_eq_some hs
          have ex : p.start_time - 2 + (i - p.start_time + 2) = i := by omega
          rw [hk]
          refine ⟨l1, tr, stmp, xi, ?_, ?_, ?_, rd_wr_same h6, ?_, ?_⟩
          · rw [f1 _ (by omega)]; exact h1
          · rw [f2 _ (by omega)]; exact h5
          · rw [ex]; exact h4
          · intro hb
            rw [if_pos hb] at h7
            exact rd_wr_same h7
          · intro hg hper
            have e1 : i - p.start_time + 2 + p.period - 1 - p.period
                = i - p.start_time + 2 - 1 := by omega
            have e2 : i - p.start_time + 2 + p.period - 1 = i - p.start_time + 2 - 1 := by omega
            rw [if_pos hg, e1] at h3
            rw [if_pos hg, e2] at h8
            refine ⟨?_, rd_wr_same h8⟩
            rw [← hQ hg hper _ (by omega)]
            exact h3
        · obtain ⟨l0, tr, stmp, y, h1, h2, h3, h4, h5, h6⟩ := hP k hk1 (by omega)
          refine ⟨l0, tr, stmp, y, ?_, ?_, h3, ?_, ?_, ?_⟩
          · rw [f1 _ (by omega)]; exact h1
          · rw [f2 _ (by omega)]; exact h2
          · rw [f1 _ (by omega)]; exact h4
          · intro hb; rw [f2 _ (by omega)]; exact h5 hb
          · intro hg hper
            refine ⟨(h6 hg hper).1, ?_⟩
            rw [f3 _ (by omega)]
            exact (h6 hg hper).2)
    fuel (p.start_time - 1) m m' (le_refl _)
    ⟨fun _ _ _ _ => rfl, fun k hk1 hk2 => by omega⟩ h
  intro k hk1 hk2
  exact hP k hk1 (by omega)

/-- C8: disabled components are not produced.  A call under the caller
contract returns; when `beta` is not `> 0` the trend buffer is returned exactly
as it was, when `gamma` is not `> 0` the season buffer is returned exactly as
it was, and in every case `level[0]` is the seed level and `level[k]`, for
every step `k = 1 .. xl - start_time + 1`, holds the level estimate of that
step, computed from `x[start_time - 2 + k]`, `level[k-1]`, `trend[k-1]` and
the seasonal term of the step: `seasonal != 1` when `gamma` is not `> 0`,
`season[k-1]` when `gamma > 0` (the returned cell when `period >= 1`, the cell
as the caller left it when `period = 0`). -/
theorem C8_disabled_components_untouched (p : Args F) (m : Out F)
    (hst : 1 ≤ p.start_time) (hxl : p.start_time - 1 ≤ p.xl)
    (hper : p.gamma > 0 → 0 ≤ p.period) (hsz : Sized p m) :
    ∃ m', HoltWinters p m = some m' ∧
      (¬ p.beta > 0 → m'.trend = m.trend) ∧
      (¬ p.gamma > 0 → m'.season = m.season) ∧
      rd m'.level 0 = some p.a ∧
      ∀ k : Int, 1 ≤ k → k ≤ p.xl - p.start_time + 1 →
        ∃ y l0 tr stmp,
          rd p.x (p.start_time - 2 + k) = some y ∧
          rd m'.level (k - 1) = some l0 ∧ rd m'.trend (k - 1) = some tr ∧
          (¬ p.gamma > 0 → stmp = if p.seasonal ≠ 1 then 1 else 0) ∧
          (p.gamma > 0 → 1 ≤ p.period → rd m'.season (k - 1) = some stmp) ∧
          (p.gamma > 0 → p.period = 0 → rd m.season (k - 1) = some stmp) ∧
          rd m'.level k = some
            (if p.seasonal = 1 then p.alpha * (y - stmp) + (1 - p.alpha) * (l0 + tr)
              else p.alpha * (y / stmp) + (1 - p.alpha) * (l0 + tr)) := by
  obtain ⟨m', hm'⟩ := HoltWinters_isSome p m hst hxl hper hsz
  obtain ⟨g1, g2, _⟩ := HoltWinters_frame hm'
  obtain ⟨level, trend, season, _, _, h3, h4⟩ := HoltWinters_eq_some hm'
  refine ⟨m', hm', g1, g2, (HoltWinters_seed hm').1, fun k hk1 hk2 => ?_⟩
  by_cases hz : p.gamma > 0 ∧ p.period = 0
  · obtain ⟨hg, hp0⟩ := hz
    obtain ⟨l0, tr, stmp, y, h1, h2, hx, h5, _, h7⟩ := loop_levelDone h4 k hk1 hk2
    have h8 : rd season (k - 1) = some stmp := (h7 hg hp0).1
    rw [if_pos hg, hp0] at h3
    rw [rd_memcpy_ge h3 (by omega)] at h8
    exact ⟨y, l0, tr, stmp, hx, h1, h2, fun hn => absurd hg hn, fun _ h1p => by omega,
      fun _ _ => h8, h5⟩
  · have hp1 : p.gamma > 0 → 1 ≤ p.period := fun hg => by
      have h0 := hper hg
      have hne : p.period ≠ 0 := fun h => hz ⟨hg, h⟩
      omega
    obtain ⟨l0, tr, stmp, y, h1, h2, hs, hx, h5, _⟩ := HoltWinters_stepDone hp1 hm' k hk1 hk2
    refine ⟨y, l0, tr, stmp, hx, h1, h2, fun hn => ?_, fun hg _ => ?_,
      fun hg h0 => absurd ⟨hg, h0⟩ hz, h5⟩
    · rw [if_neg hn] at hs
      exact (Option.some.inj hs).symm
    · rw [if_pos hg] at hs
      exact hs

/-- C10 as the code has it: a call with `gamma > 0` and `period == 0` is not
rejected.  Under the caller contract it returns after running every step:
step `k` takes its seasonal term `stmp` from `season[k-1]` as the caller left
it, writes the level estimate to `level[k]` (and the trend estimate to
`trend[k]` when `beta > 0`), and overwrites `season[k-1]` with the seasonal
estimate. -/
theorem C10_zero_period_runs (p : Args F) (m : Out F)
    (hst : 1 ≤ p.start_time) (hxl : p.start_time ≤ p.xl)
    (hg : p.gamma > 0) (hper : p.period = 0) (hsz : Sized p m) :
    ∃ m', HoltWinters p m = some m' ∧
      ∀ k : Int, 1 ≤ k → k ≤ p.xl - p.start_time + 1 →
        ∃ y l0 tr stmp lk,
          rd p.x (p.start_time - 2 + k) = some y ∧
          rd m'.level (k - 1) = some l0 ∧ rd m'.trend (k - 1) = some tr ∧
          rd m.season (k - 1) = some stmp ∧
          rd m'.level k = some lk ∧
          lk = levelEst p.seasonal p.alpha y stmp l0 tr ∧
          (p.beta > 0 → rd m'.trend k = some (trendEst p.beta lk l0 tr)) ∧
          rd m'.season (k - 1) = some (seasonEst p.seasonal p.gamma y lk stmp) := by
  obtain ⟨m', hm'⟩ := HoltWinters_isSome p m hst (by omega) (fun _ => by omega) hsz
  obtain ⟨level, trend, season, _, _, h3, h4⟩ := HoltWinters_eq_some hm'
  rw [if_pos hg, hper] at h3
  refine ⟨m', hm', fun k hk1 hk2 => ?_⟩
  obtain ⟨l0, tr, stmp, y, h1, h2, hx, h5, h6, h7⟩ := loop_levelDone h4 k hk1 hk2
  obtain ⟨h8, h9⟩ := h7 hg hper
  have h8' : rd season (k - 1) = some stmp := h8
  rw [rd_memcpy_ge h3 (by omega)] at h8'
  exact ⟨y, l0, tr, stmp, _, hx, h1, h2, h8', h5, rfl, h6, h9⟩

end AnyPeriod

/-- C8 at a concrete run: `smoothingArgs`, both components disabled, with `4`
left in the trend buffer. -/
theorem C8_disabled_components_untouched_witness :
    ∃ m', HoltWinters smoothingArgs staleTrendOut = some m' ∧
      (¬ smoothingArgs.beta > 0 → m'.trend = staleTrendOut.trend) ∧
      (¬ smoothingArgs.gamma > 0 → m'.season = staleTrendOut.season) ∧
      rd m'.level 0 = some smoothingArgs.a ∧
      ∀ k : Int, 1 ≤ k → k ≤ smoothingArgs.xl - smoothingArgs.start_time + 1 →
        ∃ y l0 tr stmp,
          rd smoothingArgs.x (smoothingArgs.start_time - 2 + k) = some y ∧
          rd m'.level (k - 1) = some l0 ∧ rd m'.trend (k - 1) = some tr ∧
          (¬ smoothingArgs.gamma > 0 → stmp = if smoothingArgs.seasonal ≠ 1 then 1 else 0) ∧
          (smoothingArgs.gamma > 0 → 1 ≤ smoothingArgs.period →
            rd m'.season (k - 1) = some stmp) ∧
          (smoothingArgs.gamma > 0 → smoothingArgs.period = 0 →
            rd staleTrendOut.season (k - 1) = some stmp) ∧
          rd m'.level k = some
            (if smoothingArgs.seasonal = 1 then
                smoothingArgs.alpha * (y - stmp) + (1 - smoothingArgs.alpha) * (l0 + tr)
              else smoothingArgs.alpha * (y / stmp) + (1 - smoothingArgs.alpha) * (l0 + tr)) :=
  C8_disabled_components_untouched smoothingArgs staleTrendOut (by decide) (by decide)
    (by decide!) (by decide!)

/-- C10 as stated fails: the call `zeroPeriodArgs` has `gamma > 0` and
`period == 0`, yet it is not rejected; it returns with `SSE` changed from `0`
to `4` and with `level[1]`, `level[2]` and `season[0]` computed by the steps. -/
theorem C10_zero_period_not_rejected :
    zeroPeriodArgs.gamma > 0 ∧ zeroPeriodArgs.period = 0 ∧
    HoltWinters zeroPeriodArgs zeroPeriodOut
      = some { SSE := 4, level := [0, -1, -1], trend := [0, 0, 0], season := [5 / 2, 3] } ∧
    (4 : ℚ) ≠ zeroPeriodOut.SSE :=
  ⟨by decide!, by decide, by decide!, by decide!⟩

/-- C10 (amended) at a concrete run: `zeroPeriodArgs`. -/
theorem C10_zero_period_runs_witness :
    ∃ m', HoltWinters zeroPeriodArgs zeroPeriodOut = some m' ∧
      ∀ k : Int, 1 ≤ k → k ≤ zeroPeriodArgs.xl - zeroPeriodArgs.start_time + 1 →
        ∃ y l0 tr stmp lk,
          rd zeroPeriodArgs.x (zeroPeriodArgs.start_time - 2 + k) = some y ∧
          rd m'.level (k - 1) = some l0 ∧ rd m'.trend (k - 1) = some tr ∧
          rd zeroPeriodOut.season (k - 1) = some stmp ∧
          rd m'.level k = some lk ∧
          lk = levelEst zeroPeriodArgs.seasonal zeroPeriodArgs.alpha y stmp l0 tr ∧
          (zeroPeriodArgs.beta > 0 →
            rd m'.trend k = some (trendEst zeroPeriodArgs.beta lk l0 tr)) ∧
          rd m'.season (k - 1)
            = some (seasonEst zeroPeriodArgs.seasonal zeroPeriodArgs.gamma y lk stmp) :=
  C10_zero_period_runs zeroPeriodArgs zeroPeriodOut (by decide) (by decide) (by decide!)
    (by decide) (by decide!)

section Seasonal
variable {F : Type} [Add F] [Sub F] [Mul F] [Div F] [Zero F] [One F] [LT F]
  [DecidableRel (fun u v : F => u < v)]

/-- C14: seasonal indexing.  With `gamma > 0` and `period >= 1`, a call under
the caller contract returns, and at every step `k` the seasonal term `stmp`
that enters the level estimate `level[k]` is the cell `season[k-1]`, and the
step's seasonal estimate is in `season[k-1+period]`.  For `k <= period` that
term is the seed value `s[k-1]`; for `k > period` it is the seasonal estimate
that step `k - period` computed.  The returned `SSE` is the prior `SSE` plus
the squared errors of the forecasts made with those terms. -/
theorem C14_seasonal_indexing (p : Args F) (m : Out F)
    (hst : 1 ≤ p.start_time) (hxl : p.start_time ≤ p.xl)
    (hg : p.gamma > 0) (hper : 1 ≤ p.period) (hsz : Sized p m) :
    ∃ m', HoltWinters p m = some m' ∧
      sseUpTo p m' m.SSE (p.xl - p.start_time + 1).toNat = some m'.SSE ∧
      ∀ k : Int, 1 ≤ k → k ≤ p.xl - p.start_time + 1 →
        ∃ y l0 tr stmp,
          rd p.x (p.start_time - 2 + k) = some y ∧
          rd m'.level (k - 1) = some l0 ∧ rd m'.trend (k - 1) = some tr ∧
          rd m'.season (k - 1) = some stmp ∧
          rd m'.level k = some (levelEst p.seasonal p.alpha y stmp l0 tr) ∧
          rd m'.season (k - 1 + p.period)
            = some (seasonEst p.seasonal p.gamma y
                (levelEst p.seasonal p.alpha y stmp l0 tr) stmp) ∧
          (k ≤ p.period → rd p.s (k - 1) = some stmp) ∧
          (p.period < k →
            ∃ y' l0' tr' stmp',
              rd p.x (p.start_time - 2 + (k - p.period)) = some y' ∧
              rd m'.level (k - p.period - 1) = some l0' ∧
              rd m'.trend (k - p.period - 1) = some tr' ∧
              rd m'.season (k - p.period - 1) = some stmp' ∧
              stmp = seasonEst p.seasonal p.gamma y'
                (levelEst p.seasonal p.alpha y' stmp' l0' tr') stmp') := by
  obtain ⟨m', hm'⟩ := HoltWinters_isSome p m hst (by omega) (fun _ => by omega) hsz
  have hsd := HoltWinters_stepDone (fun _ => hper) hm'
  obtain ⟨_, _, hseed⟩ := HoltWinters_seed hm'
  refine ⟨m', hm', HoltWinters_sse (by omega) (fun _ => hper) hm', fun k hk1 hk2 => ?_⟩
  obtain ⟨l0, tr, stmp, y, h1, h2, h3, h4, h5, _, h7⟩ := hsd k hk1 hk2
  rw [if_pos hg] at h3
  refine ⟨y, l0, tr, stmp, h4, h1, h2, h3, h5, h7 hg, fun hk => ?_, fun hk => ?_⟩
  · rw [← hseed hg (k - 1) (by omega) (by omega)]
    exact h3
  · obtain ⟨l0', tr', stmp', y', g1, g2, g3, g4, _, _, g7⟩ :=
      hsd (k - p.period) (by omega) (by omega)
    rw [if_pos hg] at g3
    have g8 := g7 hg
    have e : k - p.period - 1 + p.period = k - 1 := by omega
    rw [e, h3] at g8
    exact ⟨y', l0', tr', stmp', g4, g1, g2, g3, Option.some.inj g8⟩

end Seasonal

/-- C14 at a concrete run: `seasonalArgs` with zero-filled buffers. -/
theorem C14_seasonal_indexing_witness :
    ∃ m', HoltWinters seasonalArgs seasonalOut = some m' ∧
      sseUpTo seasonalArgs m' seasonalOut.SSE
        (seasonalArgs.xl - seasonalArgs.start_time + 1).toNat = some m'.SSE ∧
      ∀ k : Int, 1 ≤ k → k ≤ seasonalArgs.xl - seasonalArgs.start_time + 1 →
        ∃ y l0 tr stmp,
          rd seasonalArgs.x (seasonalArgs.start_time - 2 + k) = some y ∧
          rd m'.level (k - 1) = some l0 ∧ rd m'.trend (k - 1) = some tr ∧
          rd m'.season (k - 1) = some stmp ∧
          rd m'.level k = some (levelEst seasonalArgs.seasonal seasonalArgs.alpha y stmp l0 tr) ∧
          rd m'.season (k - 1 + seasonalArgs.period)
            = some (seasonEst seasonalArgs.seasonal seasonalArgs.gamma y
                (levelEst seasonalArgs.seasonal seasonalArgs.alpha y stmp l0 tr) stmp) ∧
          (k ≤ seasonalArgs.period → rd seasonalArgs.s (k - 1) = some stmp) ∧
          (seasonalArgs.period < k →
            ∃ y' l0' tr' stmp',
              rd seasonalArgs.x (seasonalArgs.start_time - 2 + (k - seasonalArgs.period))
                = some y' ∧
              rd m'.level (k - seasonalArgs.period - 1) = some l0' ∧
              rd m'.trend (k - seasonalArgs.period - 1) = some tr' ∧
              rd m'.season (k - seasonalArgs.period - 1) = some stmp' ∧
              stmp = seasonEst seasonalArgs.seasonal seasonalArgs.gamma y'
                (levelEst seasonalArgs.seasonal seasonalArgs.alpha y' stmp' l0' tr') stmp') :=
  C14_seasonal_indexing seasonalArgs seasonalOut (by decide) (by decide) (by decide!)
    (by decide) (by decide!)

section PrefixStability
variable {F : Type} [Add F] [Sub F] [Mul F] [Div F] [Zero F] [One F] [LT F]
  [DecidableRel (fun u v : F => u < v)]

/-- A call on `len + d` values leaves the entries up to the last step of the
call on the first `len` values as that shorter call leaves them. -/
theorem HoltWinters_prefix (m : Out F) (len : Int) :
    ∀ (d : Nat) (p : Args F) (r : Out F), p.start_time - 1 ≤ len → p.xl = len + d →
      (p.gamma > 0 → 0 ≤ p.period) → HoltWinters p m = some r →
      ∃ r0, HoltWinters { p with xl := len } m = some r0 ∧
        (∀ j, j ≤ len - p.start_time + 1 → rd r.level j = rd r0.level j) ∧
        (∀ j, j ≤ len - p.start_time + 1 → rd r.trend j = rd r0.trend j) ∧
        (∀ j, j ≤ len - p.start_time + p.period → rd r.season j = rd r0.season j) := by
  intro d
  induction d with
  | zero =>
    intro p r _ hxl _ h
    have e : ({ p with xl := len } : Args F) = p := by
      cases p
      simp only [Nat.cast_zero, add_zero] at hxl
      simp only [hxl]
    rw [e]
    exact ⟨r, h, fun _ _ => rfl, fun _ _ => rfl, fun _ _ => rfl⟩
  | succ d ih =>
    intro p r hlen hxl hper h
    rw [HoltWinters_last p m (by push_cast at hxl; omega)] at h
    obtain ⟨r1, hr1, hs⟩ := Option.bind_eq_some.mp h
    obtain ⟨r0, hr0, a1, a2, a3⟩ := ih { p with xl := p.xl - 1 } r1 hlen
      (by show p.xl - 1 = len + d; push_cast at hxl; omega) hper hr1
    obtain ⟨f1, f2, f3, _, f5, _⟩ := step_frame hs
    have hx : p.xl = len + d + 1 := by push_cast at hxl; omega
    refine ⟨r0, hr0, fun j hj => ?_, fun j hj => ?_, fun j hj => ?_⟩
    · rw [f1 j (by omega)]; exact a1 j hj
    · rw [f2 j (by omega)]; exact a2 j hj
    · by_cases hg : p.gamma > 0
      · have := hper hg
        rw [f3 j (by omega)]; exact a3 j hj
      · rw [f5 hg]; exact a3 j hj

/-- C16: prefix stability.  For a call under the caller contract on `xl`
values and any `len` with `start_time - 1 <= len <= xl`, the call on the first
`len` values returns as well, and every entry it can have written, `level[j]`
and `trend[j]` for `j <= len - start_time + 1` and `season[j]` for
`j <= len - start_time + period`, is the same after the longer call. -/
theorem C16_prefix_stability (p : Args F) (m : Out F) (len : Int)
    (hst : 1 ≤ p.start_time) (hlen : p.start_time - 1 ≤ len) (hxl : len ≤ p.xl)
    (hper : p.gamma > 0 → 0 ≤ p.period) (hsz : Sized p m) :
    ∃ r0 r, HoltWinters { p with xl := len } m = some r0 ∧ HoltWinters p m = some r ∧
      (∀ j, j ≤ len - p.start_time + 1 → rd r.level j = rd r0.level j) ∧
      (∀ j, j ≤ len - p.start_time + 1 → rd r.trend j = rd r0.trend j) ∧
      (∀ j, j ≤ len - p.start_time + p.period → rd r.season j = rd r0.season j) := by
  obtain ⟨r, hr⟩ := HoltWinters_isSome p m hst (by omega) hper hsz
  obtain ⟨r0, hr0, h⟩ := HoltWinters_prefix m len (p.xl - len).toNat p r hlen (by omega) hper hr
  exact ⟨r0, r, hr0, hr, h⟩

end PrefixStability

/-- C16 at a concrete run: `seasonalArgs` against its first two values. -/
theorem C16_prefix_stability_witness :
    ∃ r0 r, HoltWinters { seasonalArgs with xl := 2 } seasonalOut = some r0 ∧
      HoltWinters seasonalArgs seasonalOut = some r ∧
      (∀ j, j ≤ 2 - seasonalArgs.start_time + 1 → rd r.level j = rd r0.level j) ∧
      (∀ j, j ≤ 2 - seasonalArgs.start_time + 1 → rd r.trend j = rd r0.trend j) ∧
      (∀ j, j ≤ 2 - seasonalArgs.start_time + seasonalArgs.period →
        rd r.season j = rd r0.season j) :=
  C16_prefix_stability seasonalArgs seasonalOut 2 (by decide) (by decide) (by decide)
    (by decide!) (by decide!)

section Independence
variable {F : Type} [Add F] [Sub F] [Mul F] [Div F] [Zero F] [One F] [LT F]
  [DecidableRel (fun u v : F => u < v)]

/-- With all components enabled, two buffer sets that hold the same seeds and
record the same steps agree entry by entry: every entry is a seed or is
computed from entries below it. -/
theorem stepDone_agree (p : Args F) (r1 r2 : Out F)
    (hb : p.beta > 0) (hg : p.gamma > 0) (hper : 1 ≤ p.period)
    (hl : rd r1.level 0 = rd r2.level 0) (ht : rd r1.trend 0 = rd r2.trend 0)
    (hs : ∀ j, 0 ≤ j → j < p.period → rd r1.season j = rd r2.season j)
    (h1 : ∀ k, 1 ≤ k → k ≤ p.xl - p.start_time + 1 → StepDone p r1 k)
    (h2 : ∀ k, 1 ≤ k → k ≤ p.xl - p.start_time + 1 → StepDone p r2 k) :
    ∀ d : Nat, (d : Int) ≤ p.xl - p.start_time + 1 →
      (∀ j : Int, 0 ≤ j → j ≤ d → rd r1.level j = rd r2.level j ∧ rd r1.trend j = rd r2.trend j) ∧
      (∀ j : Int, 0 ≤ j → j ≤ d + p.period - 1 → rd r1.season j = rd r2.season j) := by
  intro d
  induction d with
  | zero =>
    intro _
    refine ⟨fun j hj0 hj1 => ?_, fun j hj0 hj1 => hs j hj0 (by push_cast at hj1; omega)⟩
    have e : j = 0 := by push_cast at hj1; omega
    rw [e]
    exact ⟨hl, ht⟩
  | succ d ih =>
    intro hd
    obtain ⟨a1, a2⟩ := ih (by push_cast at hd; omega)
    obtain ⟨l0, tr, stmp, y, b1, b2, b3, b4, b5, b6, b7⟩ :=
      h1 ((d : Int) + 1) (by omega) (by push_cast at hd; omega)
    obtain ⟨l0', tr', stmp', y', c1, c2, c3, c4, c5, c6, c7⟩ :=
      h2 ((d : Int) + 1) (by omega) (by push_cast at hd; omega)
    rw [if_pos hg] at b3 c3
    have e0 : (d : Int) + 1 - 1 = d := by omega
    rw [e0] at b1 b2 b3 c1 c2 c3
    have el : l0 = l0' := by
      have := (a1 d (by omega) (le_refl _)).1
      rw [b1, c1] at this
      exact Option.some.inj this
    have et : tr = tr' := by
      have := (a1 d (by omega) (le_refl _)).2
      rw [b2, c2] at this
      exact Option.some.inj this
    have es : stmp = stmp' := by
      have := a2 d (by omega) (by omega)
      rw [b3, c3] at this
      exact Option.some.inj this
    have ey : y = y' := by
      rw [b4] at c4
      exact Option.some.inj c4
    subst el et es ey
    refine ⟨fun j hj0 hj1 => ?_, fun j hj0 hj1 => ?_⟩
    · by_cases hj : j ≤ d
      · exact a1 j hj0 hj
      · have e : j = (d : Int) + 1 := by push_cast at hj1; omega
        rw [e]
        exact ⟨by rw [b5, c5], by rw [b6 hb, c6 hb]⟩
    · by_cases hj : j ≤ d + p.period - 1
      · exact a2 j hj0 hj
      · have e : j = (d : Int) + 1 - 1 + p.period := by push_cast at hj1; omega
        rw [e, b7 hg, c7 hg]

/-- C15: independence from prior buffer contents.  With `beta > 0`,
`gamma > 0` and `period >= 1`, two calls with the same arguments and the same
prior `SSE`, on any two sets of level, trend and season buffers of contract
size, both return, with the same `SSE` (so the same amount was added), the same
`level[j]` and `trend[j]` for `j = 0 .. xl - start_time + 1`, and the same
`season[j]` for `j = 0 .. xl - start_time + period`. -/
theorem C15_independent_of_prior_buffers (p : Args F) (m1 m2 : Out F)
    (hst : 1 ≤ p.start_time) (hxl : p.start_time - 1 ≤ p.xl)
    (hb : p.beta > 0) (hg : p.gamma > 0) (hper : 1 ≤ p.period)
    (hsz1 : Sized p m1) (hsz2 : Sized p m2) (hsse : m1.SSE = m2.SSE) :
    ∃ r1 r2, HoltWinters p m1 = some r1 ∧ HoltWinters p m2 = some r2 ∧
      r1.SSE = r2.SSE ∧
      (∀ j : Int, 0 ≤ j → j ≤ p.xl - p.start_time + 1 →
        rd r1.level j = rd r2.level j ∧ rd r1.trend j = rd r2.trend j) ∧
      (∀ j : Int, 0 ≤ j → j ≤ p.xl - p.start_time + p.period →
        rd r1.season j = rd r2.season j) := by
  obtain ⟨r1, hr1⟩ := HoltWinters_isSome p m1 hst hxl (fun _ => by omega) hsz1
  obtain ⟨r2, hr2⟩ := HoltWinters_isSome p m2 hst hxl (fun _ => by omega) hsz2
  obtain ⟨s1, s2, s3⟩ := HoltWinters_seed hr1
  obtain ⟨t1, t2, t3⟩ := HoltWinters_seed hr2
  have hn : (((p.xl - p.start_time + 1).toNat : Nat) : Int) = p.xl - p.start_time + 1 := by
    omega
  obtain ⟨a1, a2⟩ := stepDone_agree p r1 r2 hb hg hper (by rw [s1, t1])
    (by rw [s2 hb, t2 hb]) (fun j hj0 hj1 => by rw [s3 hg j hj0 hj1, t3 hg j hj0 hj1])
    (HoltWinters_stepDone (fun _ => hper) hr1) (HoltWinters_stepDone (fun _ => hper) hr2)
    (p.xl - p.start_time + 1).toNat (by omega)
  rw [hn] at a1 a2
  refine ⟨r1, r2, hr1, hr2, ?_, a1, fun j hj0 hj1 => a2 j hj0 (by omega)⟩
  have e1 := HoltWinters_sse hxl (fun _ => hper) hr1
  have e2 := HoltWinters_sse hxl (fun _ => hper) hr2
  rw [sseUpTo_agree p r2 r1 m1.SSE (p.xl - p.start_time + 1).toNat
    (fun j hj => by
      by_cases h0 : 0 ≤ j
      · exact (a1 j h0 (by omega)).1
      · simp [rd, h0])
    (fun j hj => by
      by_cases h0 : 0 ≤ j
      · exact (a1 j h0 (by omega)).2
      · simp [rd, h0])
    (fun j hj => by
      by_cases h0 : 0 ≤ j
      · exact a2 j h0 (by omega)
      · simp [rd, h0]), hsse, e2] at e1
  exact (Option.some.inj e1).symm

end Independence

/-- C15 at a concrete run: `seasonalArgs` on zero-filled buffers and on
buffers holding leftovers. -/
theorem C15_independent_of_prior_buffers_witness :
    ∃ r1 r2, HoltWinters seasonalArgs seasonalOut = some r1 ∧
      HoltWinters seasonalArgs seasonalDirtyOut = some r2 ∧
      r1.SSE = r2.SSE ∧
      (∀ j : Int, 0 ≤ j → j ≤ seasonalArgs.xl - seasonalArgs.start_time + 1 →
        rd r1.level j = rd r2.level j ∧ rd r1.trend j = rd r2.trend j) ∧
      (∀ j : Int, 0 ≤ j → j ≤ seasonalArgs.xl - seasonalArgs.start_time + seasonalArgs.period →
        rd r1.season j = rd r2.season j) :=
  C15_independent_of_prior_buffers seasonalArgs seasonalOut seasonalDirtyOut (by decide)
    (by decide) (by decide!) (by decide!) (by decide) (by decide!) (by decide!) rfl

section FixedPoint
variable {F : Type} [LinearOrderedField F]

theorem rd_mem {buf : List F} {i : Int} {v : F} (h : rd buf i = some v) : v ∈ buf := by
  unfold rd at h
  split at h
  · exact List.getElem?_mem h
  · cases h

/-- Without trend and seasonal component, and with zeros in the trend buffer,
every step is a step of simple exponential smoothing. -/
theorem HoltWinters_smoothing {p : Args F} {m m' : Out F}
    (hb : ¬ p.beta > 0) (hg : ¬ p.gamma > 0) (hz : ∀ t ∈ m.trend, t = 0)
    (h : HoltWinters p m = some m') :
    ∀ k, 1 ≤ k → k ≤ p.xl - p.start_time + 1 →
      ∃ y l0, rd p.x (p.start_time - 2 + k) = some y ∧ rd m'.level (k - 1) = some l0 ∧
        rd m'.level k = some (p.alpha * y + (1 - p.alpha) * l0) := by
  intro k hk1 hk2
  obtain ⟨l0, tr, stmp, y, h1, h2, h3, h4, h5, _, _⟩ :=
    HoltWinters_stepDone (fun hg' => absurd hg' hg) h k hk1 hk2
  rw [(HoltWinters_frame h).1 hb] at h2
  have htr : tr = 0 := hz tr (rd_mem h2)
  rw [if_neg hg] at h3
  have hst := Option.some.inj h3
  refine ⟨y, l0, h4, h1, ?_⟩
  rw [h5, ← hst, htr]
  by_cases hs : p.seasonal = 1 <;> simp [levelEst, hs]

/-- C18 (amended): in exact arithmetic the smoothed level stays inside the
data range.  With `beta` and `gamma` not `> 0`, `0 <= alpha <= 1` and a
zero-filled trend buffer, a call under the caller contract returns, and every
`level[k]`, `k >= 1`, lies in every interval `[lo, hi]` that holds the seed
level and the series values of steps `1 .. k`; so it lies between their
minimum and their maximum.  The arithmetic is that of a linearly ordered
field: no rounding. -/
theorem C18_level_within_range (p : Args F) (m : Out F)
    (hst : 1 ≤ p.start_time) (hxl : p.start_time ≤ p.xl)
    (hb : ¬ p.beta > 0) (hg : ¬ p.gamma > 0) (ha0 : 0 ≤ p.alpha) (ha1 : p.alpha ≤ 1)
    (hz : ∀ t ∈ m.trend, t = 0) (hsz : Sized p m) :
    ∃ m', HoltWinters p m = some m' ∧
      ∀ (k : Int) (lo hi : F), 1 ≤ k → k ≤ p.xl - p.start_time + 1 →
        lo ≤ p.a → p.a ≤ hi →
        (∀ (j : Int) (y : F), 1 ≤ j → j ≤ k →
          rd p.x (p.start_time - 2 + j) = some y → lo ≤ y ∧ y ≤ hi) →
        ∃ lk, rd m'.level k = some lk ∧ lo ≤ lk ∧ lk ≤ hi := by
  obtain ⟨m', hm'⟩ := HoltWinters_isSome p m hst (by omega) (fun h => absurd h hg) hsz
  refine ⟨m', hm', fun k lo hi _ hk2 hlo hhi hx => ?_⟩
  have hses := HoltWinters_smoothing hb hg hz hm'
  have key : ∀ d : Nat, (d : Int) ≤ k →
      ∃ l, rd m'.level (d : Int) = some l ∧ lo ≤ l ∧ l ≤ hi := by
    intro d
    induction d with
    | zero =>
      intro _
      exact ⟨p.a, (HoltWinters_seed hm').1, hlo, hhi⟩
    | succ d ih =>
      intro hd
      obtain ⟨l, hl, hl1, hl2⟩ := ih (by push_cast at hd; omega)
      obtain ⟨y, l0, g1, g2, g3⟩ :=
        hses ((d : Int) + 1) (by omega) (by push_cast at hd; omega)
      have e0 : (d : Int) + 1 - 1 = d := by omega
      rw [e0, hl] at g2
      have el : l = l0 := Option.some.inj g2
      subst el
      obtain ⟨hy1, hy2⟩ := hx ((d : Int) + 1) y (by omega) (by push_cast at hd; omega) g1
      have h1a : 0 ≤ 1 - p.alpha := sub_nonneg.2 ha1
      refine ⟨_, by push_cast; exact g3, ?_, ?_⟩
      · have := add_le_add (mul_le_mul_of_nonneg_left hy1 ha0)
          (mul_le_mul_of_nonneg_left hl1 h1a)
        linarith
      · have := add_le_add (mul_le_mul_of_nonneg_left hy2 ha0)
          (mul_le_mul_of_nonneg_left hl2 h1a)
        linarith
  have hk : ((k.toNat : Nat) : Int) = k := by omega
  have := key k.toNat (by omega)
  rw [hk] at this
  exact this

end FixedPoint

/-- C18 (amended) at a concrete run: `smoothingArgs` with zero-filled buffers. -/
theorem C18_level_within_range_witness :
    ∃ m', HoltWinters smoothingArgs smoothingOut = some m' ∧
      ∀ (k : Int) (lo hi : ℚ), 1 ≤ k → k ≤ smoothingArgs.xl - smoothingArgs.start_time + 1 →
        lo ≤ smoothingArgs.a → smoothingArgs.a ≤ hi →
        (∀ (j : Int) (y : ℚ), 1 ≤ j → j ≤ k →
          rd smoothingArgs.x (smoothingArgs.start_time - 2 + j) = some y → lo ≤ y ∧ y ≤ hi) →
        ∃ lk, rd m'.level k = some lk ∧ lo ≤ lk ∧ lk ≤ hi :=
  C18_level_within_range smoothingArgs smoothingOut (by decide) (by decide) (by decide!)
    (by decide!) (by decide!) (by decide!) (by decide) (by decide!)

section Constant
variable {F : Type} [LinearOrderedField F]

/-- C17 (amended): in exact arithmetic a constant series is a fixed point.
With `beta > 0`, `gamma > 0`, `period >= 1`, every processed series value
equal to `c`, seed level `c`, seed trend `0` and every seed season value the
identity of the mode (`0` in additive mode, `1` in multiplicative mode, where
`c != 0`), a call under the caller contract returns with `SSE` unchanged,
`level[j] = c` and `trend[j] = 0` for `j = 0 .. xl - start_time + 1`, and
`season[j]` the identity for `j = 0 .. xl - start_time + period`.  The
arithmetic is that of a linearly ordered field: no rounding. -/
theorem C17_constant_series_fixed_point (p : Args F) (m : Out F) (c : F)
    (hst : 1 ≤ p.start_time) (hxl : p.start_time - 1 ≤ p.xl)
    (hb : p.beta > 0) (hg : p.gamma > 0) (hper : 1 ≤ p.period)
    (hx : ∀ i : Int, p.start_time - 1 ≤ i → i < p.xl → rd p.x i = some c)
    (ha : p.a = c) (hb0 : p.b = 0)
    (hs : ∀ j : Int, 0 ≤ j → j < p.period →
      rd p.s j = some (if p.seasonal = 1 then 0 else 1))
    (hc : p.seasonal ≠ 1 → c ≠ 0) (hsz : Sized p m) :
    ∃ m', HoltWinters p m = some m' ∧ m'.SSE = m.SSE ∧
      (∀ j : Int, 0 ≤ j → j ≤ p.xl - p.start_time + 1 →
        rd m'.level j = some c ∧ rd m'.trend j = some 0) ∧
      (∀ j : Int, 0 ≤ j → j ≤ p.xl - p.start_time + p.period →
        rd m'.season j = some (if p.seasonal = 1 then 0 else 1)) := by
  obtain ⟨m', hm'⟩ := HoltWinters_isSome p m hst hxl (fun _ => by omega) hsz
  obtain ⟨s1, s2, s3⟩ := HoltWinters_seed hm'
  have hsd := HoltWinters_stepDone (fun _ => hper) hm'
  have key : ∀ d : Nat, (d : Int) ≤ p.xl - p.start_time + 1 →
      (∀ j : Int, 0 ≤ j → j ≤ d → rd m'.level j = some c ∧ rd m'.trend j = some 0) ∧
      (∀ j : Int, 0 ≤ j → j ≤ d + p.period - 1 →
        rd m'.season j = some (if p.seasonal = 1 then 0 else 1)) := by
    intro d
    induction d with
    | zero =>
      intro _
      refine ⟨fun j hj0 hj1 => ?_, fun j hj0 hj1 => ?_⟩
      · have e : j = 0 := by push_cast at hj1; omega
        rw [e, s1, s2 hb, ha, hb0]
        exact ⟨rfl, rfl⟩
      · rw [s3 hg j hj0 (by push_cast at hj1; omega)]
        exact hs j hj0 (by push_cast at hj1; omega)
    | succ d ih =>
      intro hd
      obtain ⟨a1, a2⟩ := ih (by push_cast at hd; omega)
      obtain ⟨l0, tr, stmp, y, b1, b2, b3, b4, b5, b6, b7⟩ :=
        hsd ((d : Int) + 1) (by omega) (by push_cast at hd; omega)
      rw [if_pos hg] at b3
      have e0 : (d : Int) + 1 - 1 = d := by omega
      rw [e0] at b1 b2 b3
      rw [(a1 d (by omega) (le_refl _)).1] at b1
      rw [(a1 d (by omega) (le_refl _)).2] at b2
      rw [a2 d (by omega) (by omega)] at b3
      rw [hx _ (by omega) (by push_cast at hd; omega)] at b4
      have el := Option.some.inj b1
      have et := Option.some.inj b2
      have es := Option.some.inj b3
      have ey := Option.some.inj b4
      subst el et es ey
      have hlev : levelEst p.seasonal p.alpha c (if p.seasonal = 1 then 0 else 1) c 0 = c := by
        by_cases hmode : p.seasonal = 1
        · simp only [levelEst, if_pos hmode]; ring
        · simp only [levelEst, if_neg hmode]; ring
      have htrd : trendEst p.beta c c 0 = 0 := by
        simp only [trendEst]; ring
      have hsea : seasonEst p.seasonal p.gamma c c (if p.seasonal = 1 then 0 else 1)
          = (if p.seasonal = 1 then 0 else 1) := by
        by_cases hmode : p.seasonal = 1
        · simp only [seasonEst, if_pos hmode]; ring
        · simp only [seasonEst, if_neg hmode, div_self (hc hmode)]; ring
      have b6' := b6 hb
      have b7' := b7 hg
      rw [hlev] at b5 b6' b7'
      rw [htrd] at b6'
      rw [hsea] at b7'
      refine ⟨fun j hj0 hj1 => ?_, fun j hj0 hj1 => ?_⟩
      · by_cases hj : j ≤ d
        · exact a1 j hj0 hj
        · have e : j = (d : Int) + 1 := by push_cast at hj1; omega
          rw [e]
          exact ⟨b5, b6'⟩
      · by_cases hj : j ≤ d + p.period - 1
        · exact a2 j hj0 hj
        · have e : j = (d : Int) + 1 - 1 + p.period := by push_cast at hj1; omega
          rw [e]
          exact b7'
  have hn : (((p.xl - p.start_time + 1).toNat : Nat) : Int) = p.xl - p.start_time + 1 := by
    omega
  obtain ⟨a1, a2⟩ := key (p.xl - p.start_time + 1).toNat (by omega)
  rw [hn] at a1 a2
  refine ⟨m', hm', ?_, a1, fun j hj0 hj1 => a2 j hj0 (by omega)⟩
  have hsum : ∀ d : Nat, (d : Int) ≤ p.xl - p.start_time + 1 →
      sseUpTo p m' m.SSE d = some m.SSE := by
    intro d
    induction d with
    | zero => intro _; rfl
    | succ d ih =>
      intro hd
      have hfc : forecast p.seasonal c 0 (if p.seasonal = 1 then 0 else 1) = c := by
        by_cases hmode : p.seasonal = 1
        · simp only [forecast, if_pos hmode]; ring
        · simp only [forecast, if_neg hmode]; ring
      simp only [sseUpTo, ih (by push_cast at hd; omega), if_pos hb, if_pos hg,
        (a1 d (by omega) (by push_cast at hd; omega)).1,
        (a1 d (by omega) (by push_cast at hd; omega)).2,
        a2 d (by omega) (by push_cast at hd; omega),
        hx (p.start_time - 1 + d) (by omega) (by push_cast at hd; omega),
        Option.some_bind, hfc]
      congr 1
      ring
  have e1 := HoltWinters_sse hxl (fun _ => hper) hm'
  rw [hsum _ (by omega)] at e1
  exact (Option.some.inj e1).symm

end Constant

/-- C17 (amended) at a concrete run: the constant series of `constantArgs`. -/
theorem C17_constant_series_fixed_point_witness :
    ∃ m', HoltWinters constantArgs seasonalDirtyOut = some m' ∧
      m'.SSE = seasonalDirtyOut.SSE ∧
      (∀ j : Int, 0 ≤ j → j ≤ constantArgs.xl - constantArgs.start_time + 1 →
        rd m'.level j = some 3 ∧ rd m'.trend j = some 0) ∧
      (∀ j : Int, 0 ≤ j → j ≤ constantArgs.xl - constantArgs.start_time + constantArgs.period →
        rd m'.season j = some (if constantArgs.seasonal = 1 then 0 else 1)) :=
  C17_constant_series_fixed_point constantArgs seasonalDirtyOut 3 (by decide) (by decide)
    (by decide!) (by decide!) (by decide)
    (by
      intro i h1 h2
      have h3 : i = 1 ∨ i = 2 := by
        have e1 : constantArgs.start_time = 2 := rfl
        have e2 : constantArgs.xl = 3 := rfl
        omega
      rcases h3 with h3 | h3 <;> subst h3 <;> rfl)
    rfl rfl
    (by
      intro j h1 h2
      have h3 : j = 0 ∨ j = 1 := by
        have e1 : constantArgs.period = 2 := rfl
        omega
      rcases h3 with h3 | h3 <;> subst h3 <;> rfl)
    (by decide!) (by decide!)

/-- The demo run returns, and at every step `k = 1 .. 18` the level is within
`2.22e-3` of the series value (two-sided form, checked by evaluation). -/
theorem demo_checked :
    ∀ k ∈ List.range 19, 1 ≤ k →
      ((HoltWinters demoArgs demoOut).bind fun o =>
        (rd o.level (k : Int)).bind fun l =>
        (rd demoArgs.x (k : Int)).bind fun y =>
        if l - y ≤ 222 / 100000 ∧ y - l ≤ 222 / 100000 then some () else none) = some () := by
  decide!

/-- C11 as stated fails: in the demo run `level[17]` is more than `1e-3` away
from `series[17] = 179.3` (the distance is about `2.2e-3`). -/
theorem C11_demo_tolerance_exceeded :
    ∃ m' l y, HoltWinters demoArgs demoOut = some m' ∧
      rd m'.level 17 = some l ∧ rd demoArgs.x 17 = some y ∧ 1 / 1000 < |l - y| := by
  have h : ((HoltWinters demoArgs demoOut).bind fun o =>
      (rd o.level 17).bind fun l =>
      (rd demoArgs.x 17).bind fun y =>
      if 1 / 1000 < y - l then some () else none) = some () := by decide!
  simp only [Option.bind_eq_some] at h
  obtain ⟨m', hm', l, hl, y, hy, hc⟩ := h
  refine ⟨m', l, y, hm', hl, hy, ?_⟩
  split at hc
  · rename_i hlt
    rw [abs_sub_comm]
    exact lt_of_lt_of_le hlt (le_abs_self _)
  · cases hc

/-- C11 (amended): in the demo run (the 19-value series, `start_time = 2`,
`alpha = 0.9999208`, `beta = gamma = 0`, seed level `3.93`, zero-filled buffers
of 19 cells) the call returns, `|level[k] - series[k]| <= 2.22e-3` for every
`k = 1 .. 18`, and the trend and season buffers are still all zero. -/
theorem C11_demo_scenario :
    ∃ m', HoltWinters demoArgs demoOut = some m' ∧
      (∀ k : Int, 1 ≤ k → k ≤ 18 →
        ∃ l y, rd m'.level k = some l ∧ rd demoArgs.x k = some y ∧
          |l - y| ≤ 222 / 100000) ∧
      m'.trend = List.replicate 19 0 ∧ m'.season = List.replicate 19 0 := by
  have h1 := demo_checked 1 (by decide) (le_refl _)
  obtain ⟨m', hm', _⟩ := Option.bind_eq_some.mp h1
  obtain ⟨g1, g2, _⟩ := HoltWinters_frame hm'
  refine ⟨m', hm', fun k hk1 hk2 => ?_, g1 (by decide!), g2 (by decide!)⟩
  have hk := demo_checked k.toNat (List.mem_range.2 (by omega)) (by omega)
  have e : ((k.toNat : Nat) : Int) = k := by omega
  rw [e, hm'] at hk
  simp only [Option.some_bind, Option.bind_eq_some] at hk
  obtain ⟨l, hl, y, hy, hc⟩ := hk
  refine ⟨l, y, hl, hy, ?_⟩
  split at hc
  · rename_i hb
    exact abs_sub_le_iff.2 hb
  · cases hc

/-- C12 (the code departs from it): buffers of the documented size
`xl - start_time + 1` are not enough.  For `seasonalArgs` (`xl = 3`,
`start_time = 2`) the call on 2-cell buffers leaves a buffer and has no
result, and on buffers of contract size it writes `level[2]`, `trend[2]` and
`season[2]`, all at index `2 = xl - start_time + 1`. -/
theorem C12_documented_size_too_small :
    HoltWinters seasonalArgs documentedSizeOut = none ∧
    HoltWinters seasonalArgs seasonalOut
      = some { SSE := 16, level := [1, 1, 3], trend := [0, 0, 1], season := [1, -1, 1, 0] } ∧
    seasonalArgs.xl - seasonalArgs.start_time + 1 = 2 :=
  ⟨by decide!, by decide!, by decide⟩

/-- C13 (the code departs from it): the result is not a function of the
arguments alone.  The same call `exactArgs` returns `SSE = 5` or `SSE = 0`
according to what the `SSE` cell held, and the same call `smoothingArgs`
(`beta = 0`) returns `level[1] = 3` or `level[1] = 1` according to what the
trend buffer held. -/
theorem C13_result_depends_on_prior_cells :
    (∃ r1 r2, HoltWinters exactArgs staleSseOut = some r1 ∧
      HoltWinters exactArgs exactOut = some r2 ∧ r1.SSE = 5 ∧ r2.SSE = 0) ∧
    (∃ r1 r2, HoltWinters smoothingArgs staleTrendOut = some r1 ∧
      HoltWinters smoothingArgs smoothingOut = some r2 ∧
      rd r1.level 1 = some 3 ∧ rd r2.level 1 = some 1) :=
  ⟨⟨{ SSE := 5, level := [1, 1], trend := [0, 0], season := [] },
      { SSE := 0, level := [1, 1], trend := [0, 0], season := [] },
      by decide!, by decide!, rfl, rfl⟩,
    ⟨{ SSE := 4, level := [0, 3], trend := [4, 4], season := [] },
      { SSE := 4, level := [0, 1], trend := [0, 0], season := [] },
      by decide!, by decide!, by decide!, by decide!⟩⟩

section Sizes
variable {F : Type} [Add F] [Sub F] [Mul F] [Div F] [Zero F] [One F] [LT F]
  [DecidableRel (fun u v : F => u < v)]

/-- A call that runs at least one step and returns had a level buffer of at
least `xl - start_time + 2` cells: the last step writes `level[xl - start_time + 1]`. -/
theorem HoltWinters_level_size {p : Args F} {m m' : Out F}
    (hxl : p.start_time ≤ p.xl) (h : HoltWinters p m = some m') :
    p.xl - p.start_time + 2 ≤ (m.level.length : Int) := by
  obtain ⟨level, trend, season, _, _, _, h4⟩ := HoltWinters_eq_some h
  obtain ⟨_, _, _, _, _, _, _, h5, _⟩ :=
    loop_levelDone h4 (p.xl - p.start_time + 1) (by omega) (le_refl _)
  have h6 := (rd_eq_some h5).2
  rw [(HoltWinters_frame h).2.2.1] at h6
  omega

end Sizes

/-! ## Where `double` arithmetic parts from exact arithmetic -/

/-- C17 as stated fails in `double` arithmetic: on the constant series of
`constantDblArgs` (all hypotheses of the claim hold) rounding moves every
component off the fixed point: `SSE` changes from `0`, `level[1]` is not
`0.3`, `trend[1]` is not `0` and `season[1]` is not `0`. -/
theorem C17_rounding_moves_fixed_point :
    HoltWinters constantDblArgs constantDblOut = some constantDblResult ∧
    constantDblResult.SSE ≠ constantDblOut.SSE ∧
    rd constantDblResult.level 1 ≠ some constantDblArgs.a ∧
    rd constantDblResult.trend 1 ≠ some (Dbl.fin 0) ∧
    rd constantDblResult.season 1 ≠ some (Dbl.fin 0) :=
  ⟨by decide!, by decide!, by decide!, by decide!, by decide!⟩

/-- C18 as stated fails in `double` arithmetic: on `roundingArgs` the seed
level and both series values are `0.3`, yet the call returns `level[1]` one
unit in the last place above `0.3`, outside the range of seed and data. -/
theorem C18_rounding_leaves_range :
    HoltWinters roundingArgs roundingOut = some roundingResult ∧
    (∀ y ∈ roundingArgs.x, y = roundingArgs.a) ∧
    ∃ l, rd roundingResult.level 1 = some l ∧ roundingArgs.a < l ∧ ¬ (l ≤ roundingArgs.a) :=
  ⟨by decide!, by decide!,
    Dbl.fin (1351079888211149 / 4503599627370496), by decide!, by decide!, by decide!⟩

end HW
